import Mathlib

/-!
# Performance-point scorers (`CatchScore.cpp`, `OsuScore.cpp`)

A shallow embedding of the two scorers and proofs about them.

Conventions of the embedding.

* `s32` values are integers (`Int`); every `s32` expression is evaluated in `Int`,
  so the embedding describes the executions in which no `s32` expression overflows
  (signed overflow is undefined in C++).
* `f32` values are elements of a linearly ordered field `F`; `+ - *` and the
  comparisons are exact, rounding is not modelled.  Instantiating `F := ℚ` gives
  executable definitions.
* A division whose divisor is a non-zero literal is the field division.  Every other
  division goes through `fdiv`, which yields `none` when the divisor is zero (the
  C++ quotient is then an infinity or a NaN).  A value of type `Option F` is thus
  either a finite number or `none`, and `none` is propagated by the arithmetic that
  consumes it.
* `pow` with a fractional or computed exponent, `exp` and `log10` come from the C
  maths library and are not rational functions: they are the three fields of a
  `Libm F` that every scorer takes as an argument.  `pow` with an integer exponent
  (`2.0f`, `3.0f`, `6.0f`, `24`, `2`, the `int` `_numMiss`) is the power of the field.
* `pow` has a pole at base zero with a negative exponent and no real value at a
  negative base with a fractional exponent.  A call with a positive literal base
  (`0.98`, `1.52163`), or with a positive literal exponent and a base that is a
  counter, an attribute or a quotient of them (non-negative for the non-negative
  counters and attributes the scorers are specified for) stays away from both and is
  the library function.  The other calls, whose base is a computed value, go through
  `fpow`: the outer `pow` of line 153, the `pow` of line 174 and the four calls of
  lines 75-79.  `fpow` yields `none` where the C++ result is an infinity or a NaN.
-/

namespace PP

/-! ## Collaborators declared outside the two source files -/

/-- Modelled from the spec: the modifier set `EMods` is declared in a header that is
not among the sources.  The scorers only test membership, `(_mods & EMods::X) > 0`,
so the set is one boolean per flag that is tested. -/
structure EMods where
  NoFail : Bool := false
  TouchDevice : Bool := false
  Hidden : Bool := false
  Relax : Bool := false
  HalfTime : Bool := false
  Flashlight : Bool := false
  Autoplay : Bool := false
  SpunOut : Bool := false
  Relax2 : Bool := false
  deriving DecidableEq, Repr

/-- Modelled from the spec: the attribute kinds `Beatmap::Aim`, ... that the two
scorers pass to `Beatmap::DifficultyAttribute`. -/
inductive EDifficultyAttributeType where
  | Aim
  | Speed
  | OD
  | AR
  | MaxCombo
  | DirectionChangeCount
  deriving DecidableEq, Repr

/-- Modelled from the spec: `Beatmap::EScoreVersion`; `computeAccValue` only compares
it with `ScoreV2` and treats every other value like `ScoreV1`. -/
inductive EScoreVersion where
  | ScoreV1
  | ScoreV2
  deriving DecidableEq, Repr

/-- Modelled from the spec: the attribute source `Beatmap`, reduced to the four
queries the scorers make. -/
structure Beatmap (F : Type) where
  DifficultyAttribute : EMods → EDifficultyAttributeType → F
  NumSpinners : Int
  NumHitCircles : Int
  ScoreVersion : EScoreVersion

/-- The members of the base class `Score` that the scorers read (the constructor
arguments `scoreId`, `mode`, `userId`, `beatmapId`, `score` are stored and never
read by the arithmetic). -/
structure Score where
  _maxCombo : Int
  _num300 : Int
  _num100 : Int
  _num50 : Int
  _numMiss : Int
  _numGeki : Int
  _numKatu : Int
  _mods : EMods
  deriving DecidableEq, Repr

/-- The three functions of the C maths library that the scorers call with
non-integer arguments. -/
structure Libm (F : Type) where
  pow : F → F → F
  exp : F → F
  log10 : F → F

section Embedding

variable {F : Type} [LinearOrderedField F]

/-- Modelled from the spec: `Clamp(x, lo, hi)` of `Common.h`, which is not among the
sources: `x` limited to the interval from `lo` to `hi`. -/
def Clamp (x lo hi : F) : F := max lo (min x hi)

/-- Division of two `f32` values whose divisor is not a literal: `none` when the
divisor is zero. -/
def fdiv (a b : F) : Option F := if b = 0 then none else some (a / b)

/-- The call `pow(x, y)` for a computed base `x`: `none` when the base is zero and the
exponent negative (the C++ result is an infinity), and when the base is negative
(the C++ result is a NaN for an exponent that is not an integer: the exponents of
lines 75-79 are `1.1` and `1/1.1`, and the bases of lines 153 and 174 are not
negative for the counters of a play). -/
def fpow (m : Libm F) (x y : F) : Option F :=
  if x < 0 ∨ (x = 0 ∧ y < 0) then none else some (m.pow x y)

/-! ## `CatchScore.cpp` -/

namespace CatchScore

/-- Source: `CatchScore::TotalHits`, lines 118-121. -/
def TotalHits (s : Score) : Int :=
  s._num50 + s._num100 + s._num300 + s._numMiss + s._numKatu

/-- Source: `CatchScore::TotalSuccessfulHits`, lines 123-126. -/
def TotalSuccessfulHits (s : Score) : Int :=
  s._num50 + s._num100 + s._num300

/-- Source: `CatchScore::totalComboHits`, lines 128-131. -/
def totalComboHits (s : Score) : Int :=
  s._num300 + s._num100 + s._numMiss

/-- Source: `CatchScore::Accuracy`, lines 110-116. -/
def Accuracy (s : Score) : Option F :=
  if TotalHits s = 0 then
    some 0
  else do
    let q ← fdiv (TotalSuccessfulHits s : F) (TotalHits s : F)
    pure (Clamp q 0 1)

/-- The two variables the constructor of `CatchScore` assigns: the member `_value`,
which `TotalValue` returns, and the distinct identifier `value` that lines 84, 87
and 95 multiply. -/
structure Vars (F : Type) where
  _value : F
  value : F

/-- Source: lines 55-62, the approach-rate factor multiplied into `_value` on
line 64. -/
def approachRateFactor (approachRate : F) : F :=
  let approachRateFactor : F := 1
  let approachRateFactor :=
    if approachRate > 9 then approachRateFactor + 0.1 * (approachRate - 9)
    else approachRateFactor
  if approachRate > 10 then approachRateFactor + 0.1 * (approachRate - 10)
  else if approachRate < 8 then approachRateFactor + 0.04 * (8 - approachRate)
  else approachRateFactor

/-- Source: lines 68-75, the body of the `Hidden` branch, as a function of the
`_value` it updates. -/
def hiddenStep (approachRate _value : F) : F :=
  let _value :=
    if approachRate ≤ 10 then _value * (1.05 + 0.10 * (10 - approachRate))
    else if approachRate > 10 then _value * (1.01 + 0.04 * (11 - min 11 approachRate))
    else _value
  if approachRate ≤ 9 then _value * (1 + 0.04 * (8 - approachRate)) else _value

/-- Source: lines 80-87, the body of the `Flashlight` branch: line 81 updates
`_value`, lines 84 and 87 update `value`. -/
def flashlightStep (approachRate lengthBonus : F) (v : Vars F) : Vars F :=
  let _value := v._value * (1.35 * lengthBonus)
  let value := v.value
  let value := if approachRate > 8 then value * (0.1 * (approachRate - 8) + 1) else value
  let value := if approachRate < 8 then value * (0.06 * (8 - approachRate) + 1) else value
  { _value := _value, value := value }

/-- Source: lines 50-53, combo scaling of `_value`. -/
def comboStep (m : Libm F) (_maxCombo : Int) (beatmapMaxCombo _value : F) : Option F :=
  if beatmapMaxCombo > 0 then do
    let q ← fdiv (m.pow (_maxCombo : F) 0.5) (m.pow beatmapMaxCombo 0.5)
    pure (_value * min q 1)
  else
    pure _value

/-- Source: the constructor `CatchScore::CatchScore`, lines 22-103.  The argument
`value` is the content of the identifier `value` when the constructor starts. -/
def construct (m : Libm F) (s : Score) (beatmap : Beatmap F) (value : F) : Option (Vars F) :=
  if s._mods.Relax ∨ s._mods.Relax2 ∨ s._mods.Autoplay then
    some { _value := 0, value := value }
  else do
    let _value : F :=
      (5 * max 1 (beatmap.DifficultyAttribute s._mods .Aim / 0.0049) - 4) ^ 2 / 100000
    let numTotalHits : Int := totalComboHits s
    let lengthFactor : F :=
      (numTotalHits : F) * 0.5 + beatmap.DifficultyAttribute s._mods .DirectionChangeCount * 0.9
    let lengthBonus : F := 0.84 + 0.38 * min 1 (lengthFactor / 1700)
    let _value := _value * lengthBonus
    let _value := _value * (0.96 : F) ^ s._numMiss
    let beatmapMaxCombo := beatmap.DifficultyAttribute s._mods .MaxCombo
    let _value ← comboStep m s._maxCombo beatmapMaxCombo _value
    let approachRate := beatmap.DifficultyAttribute s._mods .AR
    let _value := _value * approachRateFactor approachRate
    let _value := if s._mods.Hidden then hiddenStep approachRate _value else _value
    let v : Vars F :=
      if s._mods.Flashlight then
        flashlightStep approachRate lengthBonus { _value := _value, value := value }
      else { _value := _value, value := value }
    let acc ← Accuracy s
    let _value := v._value * acc ^ 6
    let value := if s._mods.HalfTime then v.value * 0.90 else v.value
    let _value := if s._mods.NoFail then _value * 0.90 else _value
    let _value := if s._mods.SpunOut then _value * 0.95 else _value
    pure { _value := _value, value := value }

/-- Source: `CatchScore::TotalValue`, lines 105-108, read after construction. -/
def TotalValue (m : Libm F) (s : Score) (beatmap : Beatmap F) (value : F) : Option F :=
  (construct m s beatmap value).map fun v => v._value

end CatchScore

/-! ## `OsuScore.cpp` -/

namespace OsuScore

/-- Source: `OsuScore::TotalHits`, lines 43-46. -/
def TotalHits (s : Score) : Int :=
  s._num50 + s._num100 + s._num300 + s._numMiss

/-- Source: `OsuScore::TotalSuccessfulHits`, lines 48-51. -/
def TotalSuccessfulHits (s : Score) : Int :=
  s._num50 + s._num100 + s._num300

/-- Source: `OsuScore::Accuracy`, lines 34-41. -/
def Accuracy (s : Score) : Option F :=
  if TotalHits s = 0 then
    some 0
  else do
    let q ← fdiv ((s._num50 * 50 + s._num100 * 100 + s._num300 * 300 : Int) : F)
      ((TotalHits s * 300 : Int) : F)
    pure (Clamp q 0 1)

/-- Source: lines 85-90, the value assigned to `_aimValue` before any multiplier. -/
def aimValueBase (m : Libm F) (s : Score) (beatmap : Beatmap F) : F :=
  let rawAim := beatmap.DifficultyAttribute s._mods .Aim
  let rawAim := if s._mods.TouchDevice then m.pow rawAim 0.8 else rawAim
  (5 * max 1 (rawAim / 0.0675) - 4) ^ 3 / 100000

/-- Source: line 142, the value assigned to `_speedValue` before any multiplier. -/
def speedValueBase (s : Score) (beatmap : Beatmap F) : F :=
  (5 * max 1 (beatmap.DifficultyAttribute s._mods .Speed / 0.0675) - 4) ^ 3 / 100000

/-- Source: lines 95-96 (`LengthBonus` of `computeAimValue`) and lines 147-148
(`lengthBonus` of `computeSpeedValue`), the same expression in both. -/
def lengthBonus (m : Libm F) (numTotalHits : Int) : F :=
  0.95 + 0.4 * min 1 ((numTotalHits : F) / 2000) +
    (if numTotalHits > 2000 then m.log10 ((numTotalHits : F) / 2000) * 0.5 else 0)

/-- Source: lines 101-102, the miss penalty of `computeAimValue`. -/
def aimMissStep (m : Libm F) (_numMiss numTotalHits : Int) (_aimValue : F) : Option F :=
  if _numMiss > 0 then do
    let r ← fdiv (_numMiss : F) (numTotalHits : F)
    pure (_aimValue * (0.97 * (1 - m.pow r 0.775) ^ _numMiss))
  else
    pure _aimValue

/-- Source: lines 152-153, the miss penalty of `computeSpeedValue`. -/
def speedMissStep (m : Libm F) (_numMiss numTotalHits : Int) (_speedValue : F) : Option F :=
  if _numMiss > 0 then do
    let r ← fdiv (_numMiss : F) (numTotalHits : F)
    let p ← fpow m (1 - m.pow r 0.775) (m.pow (_numMiss : F) 0.875)
    pure (_speedValue * (0.97 * p))
  else
    pure _speedValue

/-- Source: lines 105-107 and 156-158, combo scaling, the same statement in
`computeAimValue` and `computeSpeedValue`. -/
def comboStep (m : Libm F) (_maxCombo : Int) (maxCombo value : F) : Option F :=
  if maxCombo > 0 then do
    let q ← fdiv (m.pow (_maxCombo : F) 0.8) (m.pow maxCombo 0.8)
    pure (value * min q 1)
  else
    pure value

/-- Source: lines 116 and 165, `approachRateTotalHitsFactor`. -/
def approachRateTotalHitsFactor (m : Libm F) (numTotalHits : Int) : Option F :=
  fdiv 1 (1 + m.exp (-(0.007 * ((numTotalHits : F) - 400))))

/-- Source: lines 110-114, `approachRateFactor` of `computeAimValue`. -/
def aimApproachRateFactor (approachRate : F) : F :=
  if approachRate > 10.33 then approachRate - 10.33
  else if approachRate < 8 then 0.025 * (8 - approachRate)
  else 0

/-- Source: lines 161-163, `approachRateFactor` of `computeSpeedValue`. -/
def speedApproachRateFactor (approachRate : F) : F :=
  if approachRate > 10.33 then approachRate - 10.33 else 0

/-- Source: line 118 (and the factor of line 167), `approachRateBonus`. -/
def approachRateBonus (approachRateTotalHitsFactor approachRateFactor : F) : F :=
  1 + (0.03 + 0.37 * approachRateTotalHitsFactor) * approachRateFactor

/-- Source: lines 124-130, `flashlightBonus`. -/
def flashlightBonus (s : Score) (numTotalHits : Int) : F :=
  if s._mods.Flashlight then
    1 + 0.35 * min 1 ((numTotalHits : F) / 200) +
      (if numTotalHits > 200 then
        0.3 * min 1 (((numTotalHits - 200 : Int) : F) / 300) +
          (if numTotalHits > 500 then ((numTotalHits - 500 : Int) : F) / 1200 else 0)
      else 0)
  else 1

/-- Source: `OsuScore::computeAimValue`, lines 83-138; the result is the final
content of `_aimValue`. -/
def computeAimValue (m : Libm F) (s : Score) (beatmap : Beatmap F) : Option F := do
  let _aimValue := aimValueBase m s beatmap
  let numTotalHits : Int := TotalHits s
  let _aimValue := _aimValue * lengthBonus m numTotalHits
  let _aimValue ← aimMissStep m s._numMiss numTotalHits _aimValue
  let maxCombo := beatmap.DifficultyAttribute s._mods .MaxCombo
  let _aimValue ← comboStep m s._maxCombo maxCombo _aimValue
  let approachRate := beatmap.DifficultyAttribute s._mods .AR
  let approachRateFactor := aimApproachRateFactor approachRate
  let approachRateTotalHitsFactor ← approachRateTotalHitsFactor m numTotalHits
  let approachRateBonus := approachRateBonus approachRateTotalHitsFactor approachRateFactor
  let _aimValue :=
    if s._mods.Hidden then _aimValue * (1 + 0.04 * (12 - approachRate)) else _aimValue
  let flashlightBonus := flashlightBonus s numTotalHits
  let _aimValue := _aimValue * max flashlightBonus approachRateBonus
  let acc ← Accuracy s
  let _aimValue := _aimValue * (0.5 + acc / 2)
  pure (_aimValue * (0.98 + beatmap.DifficultyAttribute s._mods .OD ^ 2 / 2500))

/-- Source: line 176, the exponent of the doubletap factor. -/
def doubletapExponent (_num50 numTotalHits : Int) : F :=
  if (_num50 : F) < (numTotalHits : F) / 500 then 0
  else (_num50 : F) - (numTotalHits : F) / 500

/-- Source: `OsuScore::computeSpeedValue`, lines 142-174: the content of
`_speedValue` before the doubletap factor of line 176. -/
def speedValueScaled (m : Libm F) (s : Score) (beatmap : Beatmap F) : Option F := do
  let _speedValue := speedValueBase s beatmap
  let numTotalHits : Int := TotalHits s
  let _speedValue := _speedValue * lengthBonus m numTotalHits
  let _speedValue ← speedMissStep m s._numMiss numTotalHits _speedValue
  let maxCombo := beatmap.DifficultyAttribute s._mods .MaxCombo
  let _speedValue ← comboStep m s._maxCombo maxCombo _speedValue
  let approachRate := beatmap.DifficultyAttribute s._mods .AR
  let approachRateFactor := speedApproachRateFactor approachRate
  let approachRateTotalHitsFactor ← approachRateTotalHitsFactor m numTotalHits
  let _speedValue := _speedValue * approachRateBonus approachRateTotalHitsFactor approachRateFactor
  let _speedValue :=
    if s._mods.Hidden then _speedValue * (1 + 0.04 * (12 - approachRate)) else _speedValue
  let acc ← Accuracy s
  let od := beatmap.DifficultyAttribute s._mods .OD
  let p ← fpow m acc ((14.5 - max od 8) / 2)
  pure (_speedValue * ((0.95 + od ^ 2 / 750) * p))

/-- Source: `OsuScore::computeSpeedValue`, lines 140-177; the result is the final
content of `_speedValue`. -/
def computeSpeedValue (m : Libm F) (s : Score) (beatmap : Beatmap F) : Option F := do
  let _speedValue ← speedValueScaled m s beatmap
  let numTotalHits : Int := TotalHits s
  pure (_speedValue * m.pow 0.98 (doubletapExponent s._num50 numTotalHits))

/-- Source: lines 182-202, the pair `(numHitObjectsWithAccuracy,
betterAccuracyPercentage)` that `computeAccValue` derives from the score version. -/
def betterAccuracyPercentage (s : Score) (beatmap : Beatmap F) : Option (Int × F) :=
  if beatmap.ScoreVersion = EScoreVersion.ScoreV2 then do
    let acc ← Accuracy s
    pure (TotalHits s, acc)
  else do
    let numHitObjectsWithAccuracy := beatmap.NumHitCircles
    let betterAccuracyPercentage ←
      if numHitObjectsWithAccuracy > 0 then
        fdiv (((s._num300 - (TotalHits s - numHitObjectsWithAccuracy)) * 6 + s._num100 * 2
          + s._num50 : Int) : F) ((numHitObjectsWithAccuracy * 6 : Int) : F)
      else pure 0
    let betterAccuracyPercentage :=
      if betterAccuracyPercentage < 0 then 0 else betterAccuracyPercentage
    pure (numHitObjectsWithAccuracy, betterAccuracyPercentage)

/-- Source: `OsuScore::computeAccValue`, lines 179-218; the result is the final
content of `_accValue`. -/
def computeAccValue (m : Libm F) (s : Score) (beatmap : Beatmap F) : Option F := do
  let (numHitObjectsWithAccuracy, betterAccuracyPercentage) ← betterAccuracyPercentage s beatmap
  let _accValue :=
    m.pow 1.52163 (beatmap.DifficultyAttribute s._mods .OD) * betterAccuracyPercentage ^ 24 * 2.83
  let _accValue := _accValue * min 1.15 (m.pow ((numHitObjectsWithAccuracy : F) / 1000) 0.3)
  let _accValue := if s._mods.Hidden then _accValue * 1.08 else _accValue
  let _accValue := if s._mods.Flashlight then _accValue * 1.02 else _accValue
  pure _accValue

/-- Source: lines 64-72, the `multiplier` of `computeTotalValue`. -/
def multiplier (m : Libm F) (s : Score) (beatmap : Beatmap F) : Option F := do
  let multiplier : F := 1.12
  let multiplier :=
    if s._mods.NoFail then multiplier * max 0.9 (1 - 0.02 * (s._numMiss : F)) else multiplier
  let numTotalHits : Int := TotalHits s
  if s._mods.SpunOut then do
    let r ← fdiv (beatmap.NumSpinners : F) (numTotalHits : F)
    pure (multiplier * (1 - m.pow r 0.85))
  else
    pure multiplier

/-- Source: `OsuScore::computeTotalValue`, lines 53-81; the arguments are the contents
of `_aimValue`, `_speedValue` and `_accValue`, the result is the content of
`_totalValue`. -/
def computeTotalValue (m : Libm F) (s : Score) (beatmap : Beatmap F)
    (_aimValue _speedValue _accValue : Option F) : Option F :=
  if s._mods.Relax ∨ s._mods.Relax2 ∨ s._mods.Autoplay then
    some 0
  else do
    let multiplier ← multiplier m s beatmap
    let _aimValue ← _aimValue
    let _speedValue ← _speedValue
    let _accValue ← _accValue
    let pAim ← fpow m _aimValue 1.1
    let pSpeed ← fpow m _speedValue 1.1
    let pAcc ← fpow m _accValue 1.1
    let p ← fpow m (pAim + pSpeed + pAcc) (1 / 1.1)
    pure (p * multiplier)

/-- The four members the constructor of `OsuScore` computes. -/
structure Vars (F : Type) where
  _aimValue : Option F
  _speedValue : Option F
  _accValue : Option F
  _totalValue : Option F

/-- Source: the constructor `OsuScore::OsuScore`, lines 21-27. -/
def construct (m : Libm F) (s : Score) (beatmap : Beatmap F) : Vars F :=
  let _aimValue := computeAimValue m s beatmap
  let _speedValue := computeSpeedValue m s beatmap
  let _accValue := computeAccValue m s beatmap
  { _aimValue := _aimValue
    _speedValue := _speedValue
    _accValue := _accValue
    _totalValue := computeTotalValue m s beatmap _aimValue _speedValue _accValue }

/-- Source: `OsuScore::TotalValue`, lines 29-32, read after construction. -/
def TotalValue (m : Libm F) (s : Score) (beatmap : Beatmap F) : Option F :=
  (construct m s beatmap)._totalValue

end OsuScore

/-! ## What the proofs assume of the maths library -/

/-- Sign and range facts about `pow`, `exp` and `log10` that hold for the real
functions; the proofs that a value is defined, non-negative or positive use nothing
else about the library. -/
structure Libm.Sound (m : Libm F) : Prop where
  pow_nonneg : ∀ x y : F, 0 ≤ x → 0 ≤ m.pow x y
  pow_pos : ∀ x y : F, 0 < x → 0 < m.pow x y
  pow_le_one : ∀ x y : F, 0 ≤ x → x ≤ 1 → 0 ≤ y → m.pow x y ≤ 1
  exp_pos : ∀ x : F, 0 < m.exp x
  log10_nonneg : ∀ x : F, 1 ≤ x → 0 ≤ m.log10 x

/-- Identities and monotonicity of the real `pow` and `log10`, used where a claim
speaks of the value of a power or of the growth of the logarithm. -/
structure Libm.Exact (m : Libm F) : Prop where
  pow_zero : ∀ x : F, m.pow x 0 = 1
  pow_le_pow_left : ∀ x y z : F, 0 ≤ x → x ≤ y → 0 ≤ z → m.pow x z ≤ m.pow y z
  pow_div : ∀ x y z : F, 0 ≤ x → 0 ≤ y → m.pow (x / y) z = m.pow x z / m.pow y z
  log10_mono : ∀ x y : F, 0 < x → x ≤ y → m.log10 x ≤ m.log10 y

/-- Two facts of the real `pow` behind the generalized mean of the combine step: the
exponent `1 / z` undoes the exponent `z`, and a power with exponent at least 1 of a
sum is at least the sum of the powers. -/
structure Libm.Mean (m : Libm F) : Prop where
  pow_pow_inv : ∀ x z : F, 0 ≤ x → 0 < z → m.pow (m.pow x z) (1 / z) = x
  add_pow_le : ∀ x y z : F, 0 ≤ x → 0 ≤ y → 1 ≤ z → m.pow x z + m.pow y z ≤ m.pow (x + y) z

/-! ## Definitions that follow the wording of the claims -/

/-- The overall Hidden multiplier of Catch mode at an approach rate: what the body
of the `Hidden` branch makes of the value 1. -/
def hiddenMultiplier (approachRate : F) : F :=
  CatchScore.hiddenStep approachRate 1

/-- The doubletap penalty as the specification words it:
`0.98^max(0, goodCount − hits/500)`. -/
def doubletapPenaltySpec (m : Libm F) (goodCount hits : Int) : F :=
  m.pow 0.98 (max 0 ((goodCount : F) - (hits : F) / 500))

/-- The legacy accuracy percentage as the claim words it:
`max(0, 1 - (4*num100 + 5*num50 + 6*numMiss) / (6*C))` for `C` hit circles. -/
def legacyPercentageSpec (s : Score) (numCircles : Int) : F :=
  max 0 (1 - (4 * (s._num100 : F) + 5 * (s._num50 : F) + 6 * (s._numMiss : F)) /
    (6 * (numCircles : F)))

end Embedding

/-! ## Concrete inputs -/

/-- A rational stand-in for the maths library, to run the scorers on concrete
inputs: `pow` rounds the exponent up to an integer, `exp` is a power of two and
`log10` counts decimal digits. -/
def ratLibm : Libm ℚ where
  pow x y := x ^ ⌈y⌉
  exp x := 2 ^ ⌈x⌉
  log10 x := (Nat.log 10 ⌊x⌋₊ : ℚ)

/-- A chart profile: every modifier combination has the same attributes. -/
def sampleBeatmap : Beatmap ℚ where
  DifficultyAttribute := fun _ k =>
    match k with
    | .Aim => 3
    | .Speed => 2
    | .OD => 8
    | .AR => 9
    | .MaxCombo => 1000
    | .DirectionChangeCount => 200
  NumSpinners := 2
  NumHitCircles := 700
  ScoreVersion := .ScoreV1

/-- A play of 1000 objects with the given modifiers. -/
def samplePlay (mods : EMods) : Score where
  _maxCombo := 900
  _num300 := 950
  _num100 := 40
  _num50 := 5
  _numMiss := 5
  _numGeki := 0
  _numKatu := 0
  _mods := mods

/-- Autoplay together with every modifier that the Catch scorer rewards or
penalises. -/
def autoplayMods : EMods where
  Autoplay := true
  Hidden := true
  Flashlight := true
  HalfTime := true
  NoFail := true
  SpunOut := true

/-- A play without any judged object and without modifiers. -/
def emptyPlay : Score where
  _maxCombo := 0
  _num300 := 0
  _num100 := 0
  _num50 := 0
  _numMiss := 0
  _numGeki := 0
  _numKatu := 0
  _mods := {}

/-- The play of the accuracy example: 950 perfect, 50 great, nothing else. -/
def play950 : Score where
  _maxCombo := 1000
  _num300 := 950
  _num100 := 50
  _num50 := 0
  _numMiss := 0
  _numGeki := 0
  _numKatu := 0
  _mods := {}

/-- The play `s` after `a` of its `num100`, `b` of its `num50`, `c` of its misses and
`d` of its `numKatu` have become `num300`: the best counter rises by `a + b + c + d`
and the worse ones fall by the same total. -/
def promote (s : Score) (a b c d : Int) : Score :=
  { s with
    _num300 := s._num300 + (a + b + c + d)
    _num100 := s._num100 - a
    _num50 := s._num50 - b
    _numMiss := s._numMiss - c
    _numKatu := s._numKatu - d }

/-- HalfTime, NoFail and SpunOut, nothing else. -/
def halfTimeMods : EMods where
  HalfTime := true
  NoFail := true
  SpunOut := true

/-- A play of 1000 perfect hits at the chart's max combo with `halfTimeMods`. -/
def halfTimePlay : Score where
  _maxCombo := 1000
  _num300 := 1000
  _num100 := 0
  _num50 := 0
  _numMiss := 0
  _numGeki := 0
  _numKatu := 0
  _mods := halfTimeMods

/-- Hidden, nothing else. -/
def hiddenMods : EMods where
  Hidden := true

/-- The play `play950` with Hidden. -/
def hiddenPlay : Score :=
  { play950 with _mods := hiddenMods }

/-- SpunOut, nothing else. -/
def spunOutMods : EMods where
  SpunOut := true

/-- The play without any judged object, with SpunOut. -/
def emptySpunOutPlay : Score :=
  { emptyPlay with _mods := spunOutMods }

/-- A profile whose attributes all have the value `x`, without spinners and hit
circles. -/
def flatBeatmap {F : Type} (x : F) : Beatmap F where
  DifficultyAttribute := fun _ _ => x
  NumSpinners := 0
  NumHitCircles := 0
  ScoreVersion := .ScoreV1

/-- Flashlight, nothing else. -/
def flashlightMods : EMods where
  Flashlight := true

/-- A play of 1000 perfect hits at the chart's max combo with Flashlight. -/
def flashlightPlay : Score :=
  { halfTimePlay with _mods := flashlightMods }

/-- The profile `sampleBeatmap` with approach rate 7. -/
def lowArBeatmap : Beatmap ℚ where
  DifficultyAttribute := fun _ k =>
    match k with
    | .Aim => 3
    | .Speed => 2
    | .OD => 8
    | .AR => 7
    | .MaxCombo => 1000
    | .DirectionChangeCount => 200
  NumSpinners := 2
  NumHitCircles := 700
  ScoreVersion := .ScoreV1

section Basic

variable {F : Type} [LinearOrderedField F]

theorem fdiv_of_ne (a : F) {b : F} (h : b ≠ 0) : fdiv a b = some (a / b) := by
  simp [fdiv, h]

theorem fdiv_zero (a : F) : fdiv a (0 : F) = none := by
  simp [fdiv]

theorem fdiv_eq_none_iff (a b : F) : fdiv a b = none ↔ b = 0 := by
  unfold fdiv
  split <;> simp_all

theorem fpow_of_pos (m : Libm F) {x : F} (y : F) (h : 0 < x) :
    fpow m x y = some (m.pow x y) := by
  have h1 : ¬ x < 0 := not_lt.2 h.le
  have h2 : x ≠ 0 := ne_of_gt h
  simp [fpow, h1, h2]

theorem fpow_of_nonneg (m : Libm F) {x y : F} (h : 0 ≤ x) (hy : 0 ≤ y) :
    fpow m x y = some (m.pow x y) := by
  have h1 : ¬ x < 0 := not_lt.2 h
  have h2 : ¬ y < 0 := not_lt.2 hy
  simp [fpow, h1, h2]

theorem Clamp_nonneg (x : F) : 0 ≤ Clamp x 0 1 := le_max_left _ _

theorem Clamp_le_one (x : F) : Clamp x 0 1 ≤ 1 :=
  max_le zero_le_one (min_le_right _ _)

theorem Clamp_of_mem {x : F} (h0 : 0 ≤ x) (h1 : x ≤ 1) : Clamp x 0 1 = x := by
  simp [Clamp, h0, h1]

theorem Clamp_mono {x y : F} (h : x ≤ y) : Clamp x 0 1 ≤ Clamp y 0 1 :=
  max_le_max le_rfl (min_le_min h le_rfl)

theorem catchAccuracy_of_ne {s : Score} (h : CatchScore.TotalHits s ≠ 0) :
    (CatchScore.Accuracy s : Option F) = some
      (Clamp ((CatchScore.TotalSuccessfulHits s : F) / (CatchScore.TotalHits s : F)) 0 1) := by
  have hF : ((CatchScore.TotalHits s : Int) : F) ≠ 0 := by exact_mod_cast h
  simp [CatchScore.Accuracy, h, fdiv_of_ne _ hF]

theorem osuAccuracy_of_ne {s : Score} (h : OsuScore.TotalHits s ≠ 0) :
    (OsuScore.Accuracy s : Option F) = some
      (Clamp (((s._num50 * 50 + s._num100 * 100 + s._num300 * 300 : Int) : F) /
        ((OsuScore.TotalHits s * 300 : Int) : F)) 0 1) := by
  have h3 : OsuScore.TotalHits s * 300 ≠ 0 := mul_ne_zero h (by norm_num)
  have hF : ((OsuScore.TotalHits s * 300 : Int) : F) ≠ 0 := by exact_mod_cast h3
  simp only [OsuScore.Accuracy, h, if_false, fdiv_of_ne _ hF]
  rfl

theorem ratLibm_sound : ratLibm.Sound where
  pow_nonneg := fun x y hx => zpow_nonneg hx _
  pow_pos := fun x y hx => zpow_pos hx _
  pow_le_one := fun x y hx hx1 hy => by
    have hc : 0 ≤ ⌈y⌉ := Int.ceil_nonneg hy
    obtain ⟨n, hn⟩ := Int.eq_ofNat_of_zero_le hc
    show x ^ ⌈y⌉ ≤ 1
    rw [hn, zpow_natCast]
    exact pow_le_one₀ hx hx1
  exp_pos := fun x => zpow_pos (by norm_num) _
  log10_nonneg := fun x _ => Nat.cast_nonneg _

/-- The real power, exponential and decimal logarithm satisfy `Libm.Sound`. -/
theorem real_sound :
    Libm.Sound ({ pow := fun x y => x ^ y, exp := Real.exp, log10 := Real.logb 10 } : Libm ℝ) where
  pow_nonneg := fun x y hx => Real.rpow_nonneg hx y
  pow_pos := fun x y hx => Real.rpow_pos_of_pos hx y
  pow_le_one := fun x y hx hx1 hy => Real.rpow_le_one hx hx1 hy
  exp_pos := Real.exp_pos
  log10_nonneg := fun x hx => Real.logb_nonneg (by norm_num) hx

/-- In Osu mode, for non-negative counters and a positive number of hits, the
clamp of `Accuracy` is the identity. -/
theorem osuAccuracy_quotient (t : Score) (g50 : 0 ≤ t._num50) (g100 : 0 ≤ t._num100)
    (g300 : 0 ≤ t._num300) (gMiss : 0 ≤ t._numMiss) (gT : 0 < OsuScore.TotalHits t) :
    (OsuScore.Accuracy t : Option F) = some
      ((50 * (t._num50 : F) + 100 * (t._num100 : F) + 300 * (t._num300 : F)) /
        (300 * ((t._num50 : F) + (t._num100 : F) + (t._num300 : F) + (t._numMiss : F)))) := by
  have e50 : (0 : F) ≤ (t._num50 : F) := by exact_mod_cast g50
  have e100 : (0 : F) ≤ (t._num100 : F) := by exact_mod_cast g100
  have e300 : (0 : F) ≤ (t._num300 : F) := by exact_mod_cast g300
  have eMiss : (0 : F) ≤ (t._numMiss : F) := by exact_mod_cast gMiss
  have eT : (0 : F) < (t._num50 : F) + (t._num100 : F) + (t._num300 : F) + (t._numMiss : F) := by
    have : (0 : F) < ((OsuScore.TotalHits t : Int) : F) := by exact_mod_cast gT
    simpa [OsuScore.TotalHits] using this
  rw [osuAccuracy_of_ne (ne_of_gt gT)]
  have eq : ((t._num50 * 50 + t._num100 * 100 + t._num300 * 300 : Int) : F) /
      ((OsuScore.TotalHits t * 300 : Int) : F) =
      (50 * (t._num50 : F) + 100 * (t._num100 : F) + 300 * (t._num300 : F)) /
        (300 * ((t._num50 : F) + (t._num100 : F) + (t._num300 : F) + (t._numMiss : F))) := by
    simp only [OsuScore.TotalHits]
    push_cast
    ring
  rw [eq, Clamp_of_mem]
  · apply div_nonneg <;> nlinarith
  · rw [div_le_one (by linarith)]
    nlinarith

/-- In Catch mode a play without misses and `numKatu`, with at least one successful
hit, has accuracy 1. -/
theorem catchAccuracy_perfect (s : Score) (hMiss : s._numMiss = 0) (hKatu : s._numKatu = 0)
    (hHits : 0 < CatchScore.TotalSuccessfulHits s) :
    (CatchScore.Accuracy s : Option F) = some 1 := by
  have hT : CatchScore.TotalHits s = CatchScore.TotalSuccessfulHits s := by
    simp [CatchScore.TotalHits, CatchScore.TotalSuccessfulHits, hMiss, hKatu]
  have hne : CatchScore.TotalHits s ≠ 0 := by rw [hT]; exact ne_of_gt hHits
  have hF : ((CatchScore.TotalSuccessfulHits s : Int) : F) ≠ 0 := by
    exact_mod_cast (ne_of_gt hHits)
  rw [catchAccuracy_of_ne hne, hT, div_self hF, Clamp_of_mem zero_le_one le_rfl]

/-- Combo scaling in Catch mode leaves `_value` unchanged when the player's max combo
is the chart's positive max combo. -/
theorem catchComboStep_full (m : Libm F) (hm : m.Sound) (c : Int) (b v : F)
    (hpos : 0 < b) (hc : (c : F) = b) : CatchScore.comboStep m c b v = some v := by
  have hp : m.pow b 0.5 ≠ 0 := ne_of_gt (hm.pow_pos b 0.5 hpos)
  simp [CatchScore.comboStep, hpos, hc, fdiv_of_ne _ hp, div_self hp]

/-- What the constructor of `CatchScore` stores in `_value` for a play with HalfTime,
NoFail and SpunOut, without Relax, Relax2, Autoplay, Hidden and Flashlight, without
misses and `numKatu`, with a successful hit, at the chart's positive max combo: the
factor `0.90` occurs once (NoFail), and `value` takes the HalfTime factor. -/
theorem catchConstruct_halfTime (m : Libm F) (hm : m.Sound) (s : Score) (beatmap : Beatmap F)
    (value : F)
    (hHT : s._mods.HalfTime = true) (hNF : s._mods.NoFail = true) (hSO : s._mods.SpunOut = true)
    (hR : s._mods.Relax = false) (hR2 : s._mods.Relax2 = false) (hA : s._mods.Autoplay = false)
    (hH : s._mods.Hidden = false) (hFL : s._mods.Flashlight = false)
    (hMiss : s._numMiss = 0) (hKatu : s._numKatu = 0)
    (hHits : 0 < CatchScore.TotalSuccessfulHits s)
    (hpos : 0 < beatmap.DifficultyAttribute s._mods .MaxCombo)
    (hc : (s._maxCombo : F) = beatmap.DifficultyAttribute s._mods .MaxCombo) :
    CatchScore.construct m s beatmap value = some
      { _value :=
          (5 * max 1 (beatmap.DifficultyAttribute s._mods .Aim / 0.0049) - 4) ^ 2 / 100000 *
            (0.84 + 0.38 * min 1 (((CatchScore.totalComboHits s : F) * 0.5 +
              beatmap.DifficultyAttribute s._mods .DirectionChangeCount * 0.9) / 1700)) *
            CatchScore.approachRateFactor (beatmap.DifficultyAttribute s._mods .AR) *
            0.90 * 0.95
        value := value * 0.90 } := by
  simp only [CatchScore.construct, hR, hR2, hA, hH, hFL, hHT, hNF, hSO, hMiss,
    catchComboStep_full m hm _ _ _ hpos hc, catchAccuracy_perfect s hMiss hKatu hHits]
  simp

/-! ### Steps of the Osu sub-values -/

theorem osuAccuracy_mem (s : Score) :
    ∃ a : F, OsuScore.Accuracy s = some a ∧ 0 ≤ a ∧ a ≤ 1 := by
  by_cases h : OsuScore.TotalHits s = 0
  · exact ⟨0, by simp [OsuScore.Accuracy, h], le_rfl, zero_le_one⟩
  · exact ⟨_, osuAccuracy_of_ne h, Clamp_nonneg _, Clamp_le_one _⟩

theorem catchAccuracy_mem (s : Score) :
    ∃ a : F, CatchScore.Accuracy s = some a ∧ 0 ≤ a ∧ a ≤ 1 := by
  by_cases h : CatchScore.TotalHits s = 0
  · exact ⟨0, by simp [CatchScore.Accuracy, h], le_rfl, zero_le_one⟩
  · exact ⟨_, catchAccuracy_of_ne h, Clamp_nonneg _, Clamp_le_one _⟩

/-- The miss ratio `_numMiss / numTotalHits` of a play with a miss, non-negative
counters: defined, positive and at most 1. -/
theorem missRatio_some (n h : Int) (hn : 0 < n) (hh : n ≤ h) :
    ∃ r : F, fdiv (n : F) (h : F) = some r ∧ 0 < r ∧ r ≤ 1 := by
  have hhpos : (0 : F) < (h : F) := by exact_mod_cast (lt_of_lt_of_le hn hh)
  have hnpos : (0 : F) < (n : F) := by exact_mod_cast hn
  have hle : (n : F) ≤ (h : F) := by exact_mod_cast hh
  exact ⟨_, fdiv_of_ne _ (ne_of_gt hhpos), div_pos hnpos hhpos, (div_le_one hhpos).2 hle⟩

/-- The miss penalty of `computeAimValue` multiplies by a non-negative factor, which
is 1 for a play without misses. -/
theorem aimMissStep_factor (m : Libm F) (hm : m.Sound) (n h : Int) (hn : 0 ≤ n) (hh : n ≤ h) :
    ∃ f : F, 0 ≤ f ∧ (n = 0 → f = 1) ∧ ∀ v, OsuScore.aimMissStep m n h v = some (v * f) := by
  by_cases hpos : 0 < n
  · obtain ⟨r, hr, hr0, hr1⟩ := missRatio_some (F := F) n h hpos hh
    have hp : m.pow r 0.775 ≤ 1 := hm.pow_le_one r 0.775 hr0.le hr1 (by norm_num)
    refine ⟨0.97 * (1 - m.pow r 0.775) ^ n, ?_, fun h0 => absurd h0 (ne_of_gt hpos), ?_⟩
    · exact mul_nonneg (by norm_num) (zpow_nonneg (by linarith) _)
    · intro v
      simp [OsuScore.aimMissStep, hpos, hr]
  · have h0 : n = 0 := le_antisymm (not_lt.1 hpos) hn
    exact ⟨1, zero_le_one, fun _ => rfl, fun v => by simp [OsuScore.aimMissStep, h0]⟩

/-- The miss penalty of `computeSpeedValue` multiplies by a non-negative factor,
which is 1 for a play without misses. -/
theorem speedMissStep_factor (m : Libm F) (hm : m.Sound) (n h : Int) (hn : 0 ≤ n) (hh : n ≤ h) :
    ∃ f : F, 0 ≤ f ∧ (n = 0 → f = 1) ∧ ∀ v, OsuScore.speedMissStep m n h v = some (v * f) := by
  by_cases hpos : 0 < n
  · obtain ⟨r, hr, hr0, hr1⟩ := missRatio_some (F := F) n h hpos hh
    have hp : m.pow r 0.775 ≤ 1 := hm.pow_le_one r 0.775 hr0.le hr1 (by norm_num)
    have hnF : (0 : F) < (n : F) := by exact_mod_cast hpos
    have hexp : 0 ≤ m.pow (n : F) 0.875 := (hm.pow_pos _ _ hnF).le
    have hb : 0 ≤ 1 - m.pow r 0.775 := by linarith
    refine ⟨0.97 * m.pow (1 - m.pow r 0.775) (m.pow (n : F) 0.875), ?_,
      fun h0 => absurd h0 (ne_of_gt hpos), ?_⟩
    · exact mul_nonneg (by norm_num) (hm.pow_nonneg _ _ (by linarith))
    · intro v
      simp [OsuScore.speedMissStep, hpos, hr, fpow_of_nonneg m hb hexp]
  · have h0 : n = 0 := le_antisymm (not_lt.1 hpos) hn
    exact ⟨1, zero_le_one, fun _ => rfl, fun v => by simp [OsuScore.speedMissStep, h0]⟩

/-- Combo scaling in Osu mode multiplies by a factor between 0 and 1, which is
positive when the player's max combo is. -/
theorem osuComboStep_factor (m : Libm F) (hm : m.Sound) (c : Int) (hc : 0 ≤ c) (b : F) :
    ∃ f : F, 0 ≤ f ∧ f ≤ 1 ∧ (0 < c → 0 < f) ∧
      ∀ v, OsuScore.comboStep m c b v = some (v * f) := by
  by_cases hb : 0 < b
  · have hp : 0 < m.pow b 0.8 := hm.pow_pos b 0.8 hb
    have hcF : (0 : F) ≤ (c : F) := by exact_mod_cast hc
    have hq : 0 ≤ m.pow (c : F) 0.8 / m.pow b 0.8 :=
      div_nonneg (hm.pow_nonneg _ _ hcF) hp.le
    refine ⟨min (m.pow (c : F) 0.8 / m.pow b 0.8) 1, le_min hq zero_le_one, min_le_right _ _,
      ?_, ?_⟩
    · intro hcpos
      have hcF1 : (0 : F) < (c : F) := by exact_mod_cast hcpos
      exact lt_min (div_pos (hm.pow_pos _ _ hcF1) hp) zero_lt_one
    · intro v
      simp [OsuScore.comboStep, hb, fdiv_of_ne _ (ne_of_gt hp)]
  · exact ⟨1, zero_le_one, le_rfl, fun _ => zero_lt_one,
      fun v => by simp [OsuScore.comboStep, hb]⟩

/-- The logistic factor `approachRateTotalHitsFactor` is defined and lies strictly
between 0 and 1. -/
theorem approachRateTotalHitsFactor_some (m : Libm F) (hm : m.Sound) (n : Int) :
    ∃ t : F, OsuScore.approachRateTotalHitsFactor m n = some t ∧ 0 < t ∧ t < 1 := by
  have he := hm.exp_pos (-(0.007 * ((n : F) - 400)))
  have hd : (0 : F) < 1 + m.exp (-(0.007 * ((n : F) - 400))) := by linarith
  refine ⟨_, fdiv_of_ne _ (ne_of_gt hd), div_pos zero_lt_one hd, ?_⟩
  rw [div_lt_one hd]
  linarith

theorem aimApproachRateFactor_nonneg (approachRate : F) :
    0 ≤ OsuScore.aimApproachRateFactor approachRate := by
  unfold OsuScore.aimApproachRateFactor
  split_ifs with h1 h2
  · linarith
  · linarith
  · exact le_rfl

theorem speedApproachRateFactor_nonneg (approachRate : F) :
    0 ≤ OsuScore.speedApproachRateFactor approachRate := by
  unfold OsuScore.speedApproachRateFactor
  split_ifs with h1
  · linarith
  · exact le_rfl

theorem approachRateBonus_ge_one {t f : F} (ht : 0 ≤ t) (hf : 0 ≤ f) :
    1 ≤ OsuScore.approachRateBonus t f := by
  unfold OsuScore.approachRateBonus
  have : 0 ≤ (0.03 + 0.37 * t) * f := mul_nonneg (by linarith) hf
  linarith

theorem lengthBonus_ge (m : Libm F) (hm : m.Sound) (n : Int) (hn : 0 ≤ n) :
    0.95 ≤ OsuScore.lengthBonus m n := by
  have hnF : (0 : F) ≤ (n : F) := by exact_mod_cast hn
  have h1 : (0 : F) ≤ min 1 ((n : F) / 2000) := le_min zero_le_one (by positivity)
  have h2 : (0 : F) ≤
      (if n > 2000 then m.log10 ((n : F) / 2000) * 0.5 else 0) := by
    split_ifs with h
    · have hF : (2000 : F) < (n : F) := by exact_mod_cast h
      have : (1 : F) ≤ (n : F) / 2000 := by
        rw [le_div_iff₀ (by norm_num)]
        linarith
      exact mul_nonneg (hm.log10_nonneg _ this) (by norm_num)
    · exact le_rfl
  unfold OsuScore.lengthBonus
  linarith

theorem aimValueBase_pos (m : Libm F) (s : Score) (beatmap : Beatmap F) :
    0 < OsuScore.aimValueBase m s beatmap := by
  unfold OsuScore.aimValueBase
  have h : ∀ x : F, (1 : F) ≤ 5 * max 1 x - 4 := fun x => by
    have := le_max_left (1 : F) x
    linarith
  exact div_pos (pow_pos (lt_of_lt_of_le zero_lt_one (h _)) 3) (by norm_num)

theorem speedValueBase_pos (s : Score) (beatmap : Beatmap F) :
    0 < OsuScore.speedValueBase s beatmap := by
  unfold OsuScore.speedValueBase
  have h : ∀ x : F, (1 : F) ≤ 5 * max 1 x - 4 := fun x => by
    have := le_max_left (1 : F) x
    linarith
  exact div_pos (pow_pos (lt_of_lt_of_le zero_lt_one (h _)) 3) (by norm_num)

/-! ### The Osu sub-values as products -/

/-- The aim sub-value of a play with non-negative counters and max combo is defined,
and is the product of the base value, the length bonus, a miss factor `f₁`, a combo
factor `f₂`, the Hidden factor, the larger of the two bonuses and the two accuracy
factors. -/
theorem computeAimValue_eq (m : Libm F) (hm : m.Sound) (s : Score) (beatmap : Beatmap F)
    (h300 : 0 ≤ s._num300) (h100 : 0 ≤ s._num100) (h50 : 0 ≤ s._num50)
    (hMiss : 0 ≤ s._numMiss) (hCombo : 0 ≤ s._maxCombo) :
    ∃ f₁ f₂ t acc : F, 0 ≤ f₁ ∧ (s._numMiss = 0 → f₁ = 1) ∧ 0 ≤ f₂ ∧ (0 < s._maxCombo → 0 < f₂) ∧
      0 < t ∧ 0 ≤ acc ∧ OsuScore.Accuracy s = some acc ∧
      OsuScore.computeAimValue m s beatmap = some
        (OsuScore.aimValueBase m s beatmap * OsuScore.lengthBonus m (OsuScore.TotalHits s)
          * f₁ * f₂
          * (if s._mods.Hidden then 1 + 0.04 * (12 - beatmap.DifficultyAttribute s._mods .AR)
              else 1)
          * max (OsuScore.flashlightBonus s (OsuScore.TotalHits s))
              (OsuScore.approachRateBonus t
                (OsuScore.aimApproachRateFactor (beatmap.DifficultyAttribute s._mods .AR)))
          * (0.5 + acc / 2)
          * (0.98 + beatmap.DifficultyAttribute s._mods .OD ^ 2 / 2500)) := by
  have hh : s._numMiss ≤ OsuScore.TotalHits s := by
    simp only [OsuScore.TotalHits]; omega
  obtain ⟨f₁, hf₁, hf₁one, e₁⟩ := aimMissStep_factor m hm s._numMiss _ hMiss hh
  obtain ⟨f₂, hf₂, -, hf₂pos, e₂⟩ :=
    osuComboStep_factor m hm s._maxCombo hCombo (beatmap.DifficultyAttribute s._mods .MaxCombo)
  obtain ⟨t, et, ht, -⟩ := approachRateTotalHitsFactor_some m hm (OsuScore.TotalHits s)
  obtain ⟨acc, eacc, hacc, -⟩ := osuAccuracy_mem (F := F) s
  refine ⟨f₁, f₂, t, acc, hf₁, hf₁one, hf₂, hf₂pos, ht, hacc, eacc, ?_⟩
  simp only [OsuScore.computeAimValue, e₁, e₂, et, eacc, Option.pure_def, Option.bind_eq_bind,
    Option.some_bind]
  cases s._mods.Hidden <;> simp

/-- The call of `pow` on line 174 is defined when the overall difficulty is at most
14.5 or the accuracy is not 0. -/
theorem accuracyPow_some (m : Libm F) (s : Score) (od acc : F) (hacc : 0 ≤ acc)
    (eacc : OsuScore.Accuracy s = some acc)
    (hp : od ≤ 14.5 ∨ (OsuScore.Accuracy s : Option F) ≠ some 0) :
    fpow m acc ((14.5 - max od 8) / 2) = some (m.pow acc ((14.5 - max od 8) / 2)) := by
  rcases hp with h | h
  · apply fpow_of_nonneg m hacc
    have : max od 8 ≤ 14.5 := max_le h (by norm_num)
    linarith
  · apply fpow_of_pos
    rcases lt_or_eq_of_le hacc with h0 | h0
    · exact h0
    · exact absurd (by rw [eacc, ← h0]) h

/-- The content of `_speedValue` before the doubletap factor, for a play with
non-negative counters and max combo, when the overall difficulty is at most 14.5 or
the accuracy is not 0: the product of the base value, the length bonus, a miss
factor `g₁`, a combo factor `f₂`, the approach-rate bonus, the Hidden factor and the
accuracy factor. -/
theorem speedValueScaled_eq (m : Libm F) (hm : m.Sound) (s : Score) (beatmap : Beatmap F)
    (h300 : 0 ≤ s._num300) (h100 : 0 ≤ s._num100) (h50 : 0 ≤ s._num50)
    (hMiss : 0 ≤ s._numMiss) (hCombo : 0 ≤ s._maxCombo)
    (hp : beatmap.DifficultyAttribute s._mods .OD ≤ 14.5 ∨
      (OsuScore.Accuracy s : Option F) ≠ some 0) :
    ∃ g₁ f₂ t acc : F, 0 ≤ g₁ ∧ (s._numMiss = 0 → g₁ = 1) ∧ 0 ≤ f₂ ∧ (0 < s._maxCombo → 0 < f₂) ∧
      0 < t ∧ 0 ≤ acc ∧ OsuScore.Accuracy s = some acc ∧
      OsuScore.speedValueScaled m s beatmap = some
        (OsuScore.speedValueBase s beatmap * OsuScore.lengthBonus m (OsuScore.TotalHits s)
          * g₁ * f₂
          * OsuScore.approachRateBonus t
              (OsuScore.speedApproachRateFactor (beatmap.DifficultyAttribute s._mods .AR))
          * (if s._mods.Hidden then 1 + 0.04 * (12 - beatmap.DifficultyAttribute s._mods .AR)
              else 1)
          * ((0.95 + beatmap.DifficultyAttribute s._mods .OD ^ 2 / 750)
              * m.pow acc ((14.5 - max (beatmap.DifficultyAttribute s._mods .OD) 8) / 2))) := by
  have hh : s._numMiss ≤ OsuScore.TotalHits s := by
    simp only [OsuScore.TotalHits]; omega
  obtain ⟨g₁, hg₁, hg₁one, e₁⟩ := speedMissStep_factor m hm s._numMiss _ hMiss hh
  obtain ⟨f₂, hf₂, -, hf₂pos, e₂⟩ :=
    osuComboStep_factor m hm s._maxCombo hCombo (beatmap.DifficultyAttribute s._mods .MaxCombo)
  obtain ⟨t, et, ht, -⟩ := approachRateTotalHitsFactor_some m hm (OsuScore.TotalHits s)
  obtain ⟨acc, eacc, hacc, -⟩ := osuAccuracy_mem (F := F) s
  have ep := accuracyPow_some m s (beatmap.DifficultyAttribute s._mods .OD) acc hacc eacc hp
  refine ⟨g₁, f₂, t, acc, hg₁, hg₁one, hf₂, hf₂pos, ht, hacc, eacc, ?_⟩
  simp only [OsuScore.speedValueScaled, e₁, e₂, et, eacc, ep, Option.pure_def,
    Option.bind_eq_bind, Option.some_bind]
  cases s._mods.Hidden <;> simp

/-- The speed sub-value is the content of `_speedValue` before line 176 times the
doubletap factor. -/
theorem computeSpeedValue_split (m : Libm F) (s : Score) (beatmap : Beatmap F) :
    OsuScore.computeSpeedValue m s beatmap =
      (OsuScore.speedValueScaled m s beatmap).map
        (fun v => v * m.pow 0.98 (OsuScore.doubletapExponent s._num50 (OsuScore.TotalHits s))) := by
  unfold OsuScore.computeSpeedValue
  cases OsuScore.speedValueScaled m s beatmap <;> rfl

/-- The speed sub-value of a play with non-negative counters and max combo is
defined when the overall difficulty is at most 14.5 or the accuracy is not 0, and is
the product of the base value, the length bonus, a miss factor `g₁`, a combo factor
`f₂`, the approach-rate bonus, the Hidden factor, the accuracy factor and the
doubletap factor. -/
theorem computeSpeedValue_eq (m : Libm F) (hm : m.Sound) (s : Score) (beatmap : Beatmap F)
    (h300 : 0 ≤ s._num300) (h100 : 0 ≤ s._num100) (h50 : 0 ≤ s._num50)
    (hMiss : 0 ≤ s._numMiss) (hCombo : 0 ≤ s._maxCombo)
    (hp : beatmap.DifficultyAttribute s._mods .OD ≤ 14.5 ∨
      (OsuScore.Accuracy s : Option F) ≠ some 0) :
    ∃ g₁ f₂ t acc : F, 0 ≤ g₁ ∧ (s._numMiss = 0 → g₁ = 1) ∧ 0 ≤ f₂ ∧ (0 < s._maxCombo → 0 < f₂) ∧
      0 < t ∧ 0 ≤ acc ∧ OsuScore.Accuracy s = some acc ∧
      OsuScore.computeSpeedValue m s beatmap = some
        (OsuScore.speedValueBase s beatmap * OsuScore.lengthBonus m (OsuScore.TotalHits s)
          * g₁ * f₂
          * OsuScore.approachRateBonus t
              (OsuScore.speedApproachRateFactor (beatmap.DifficultyAttribute s._mods .AR))
          * (if s._mods.Hidden then 1 + 0.04 * (12 - beatmap.DifficultyAttribute s._mods .AR)
              else 1)
          * ((0.95 + beatmap.DifficultyAttribute s._mods .OD ^ 2 / 750)
              * m.pow acc ((14.5 - max (beatmap.DifficultyAttribute s._mods .OD) 8) / 2))
          * m.pow 0.98 (OsuScore.doubletapExponent s._num50 (OsuScore.TotalHits s))) := by
  obtain ⟨g₁, f₂, t, acc, hg₁, hg₁one, hf₂, hf₂pos, ht, hacc, eacc, e⟩ :=
    speedValueScaled_eq m hm s beatmap h300 h100 h50 hMiss hCombo hp
  exact ⟨g₁, f₂, t, acc, hg₁, hg₁one, hf₂, hf₂pos, ht, hacc, eacc, by
    rw [computeSpeedValue_split, e]; rfl⟩

/-- The pair that `computeAccValue` derives from the score version is defined, with
a non-negative percentage; the object count is non-negative when the counters and
the hit-circle count are. -/
theorem betterAccuracyPercentage_some (s : Score) (beatmap : Beatmap F) :
    ∃ (n : Int) (p : F), OsuScore.betterAccuracyPercentage s beatmap = some (n, p) ∧ 0 ≤ p ∧
      (n = OsuScore.TotalHits s ∨ n = beatmap.NumHitCircles) := by
  unfold OsuScore.betterAccuracyPercentage
  by_cases hv : beatmap.ScoreVersion = EScoreVersion.ScoreV2
  · obtain ⟨acc, eacc, hacc, -⟩ := osuAccuracy_mem (F := F) s
    exact ⟨_, acc, by simp [hv, eacc], hacc, Or.inl rfl⟩
  · by_cases hc : beatmap.NumHitCircles > 0
    · have hne : ((beatmap.NumHitCircles * 6 : Int) : F) ≠ 0 := by
        have : beatmap.NumHitCircles * 6 ≠ 0 := by omega
        exact_mod_cast this
      refine ⟨_, _, by simp only [hv, hc, if_true, if_false, fdiv_of_ne _ hne,
        Option.pure_def, Option.bind_eq_bind, Option.some_bind]; rfl, ?_, Or.inr rfl⟩
      split_ifs with hneg
      · exact le_rfl
      · exact not_lt.1 hneg
    · exact ⟨_, 0, by simp [hv, hc], le_rfl, Or.inr rfl⟩

/-- The accuracy sub-value is defined, and is non-negative when the number of
objects it weighs is. -/
theorem computeAccValue_nonneg (m : Libm F) (hm : m.Sound) (s : Score) (beatmap : Beatmap F)
    (hT : 0 ≤ OsuScore.TotalHits s) (hC : 0 ≤ beatmap.NumHitCircles) :
    ∃ c : F, OsuScore.computeAccValue m s beatmap = some c ∧ 0 ≤ c := by
  obtain ⟨n, p, e, hp, hn⟩ := betterAccuracyPercentage_some (F := F) s beatmap
  have hn0 : (0 : F) ≤ (n : F) := by
    have : 0 ≤ n := by rcases hn with h | h <;> rw [h] <;> assumption
    exact_mod_cast this
  have h1 : 0 ≤ m.pow 1.52163 (beatmap.DifficultyAttribute s._mods .OD) * p ^ 24 * 2.83 *
      min 1.15 (m.pow ((n : F) / 1000) 0.3) :=
    mul_nonneg (mul_nonneg (mul_nonneg (hm.pow_nonneg _ _ (by norm_num)) (by positivity))
      (by norm_num)) (le_min (by norm_num) (hm.pow_nonneg _ _ (by positivity)))
  refine ⟨_, by simp only [OsuScore.computeAccValue, e, Option.pure_def, Option.bind_eq_bind,
    Option.some_bind]; rfl, ?_⟩
  cases s._mods.Hidden <;> cases s._mods.Flashlight <;> simp <;> nlinarith

/-- The `multiplier` of `computeTotalValue` is defined when SpunOut is not set or the
play has a judged object. -/
theorem osuMultiplier_some (m : Libm F) (s : Score) (beatmap : Beatmap F)
    (h : s._mods.SpunOut = true → OsuScore.TotalHits s ≠ 0) :
    ∃ x : F, OsuScore.multiplier m s beatmap = some x := by
  unfold OsuScore.multiplier
  by_cases hS : s._mods.SpunOut = true
  · have hne : ((OsuScore.TotalHits s : Int) : F) ≠ 0 := by exact_mod_cast h hS
    exact ⟨_, by simp only [hS, if_true, fdiv_of_ne _ hne, Option.pure_def,
      Option.bind_eq_bind, Option.some_bind]; rfl⟩
  · exact ⟨_, by simp only [hS, Option.pure_def]; rfl⟩

/-- The `multiplier` of `computeTotalValue` is not a finite number when SpunOut is
set and the play has no judged object: line 72 divides by `numTotalHits = 0`. -/
theorem osuMultiplier_none (m : Libm F) (s : Score) (beatmap : Beatmap F)
    (hS : s._mods.SpunOut = true) (h : OsuScore.TotalHits s = 0) :
    OsuScore.multiplier m s beatmap = none := by
  simp [OsuScore.multiplier, hS, h, fdiv_zero]

/-- The three Osu sub-values of a play with non-negative counters, max combo and
hit-circle count are defined and non-negative when the approach rate is at most 37
under Hidden and the overall difficulty is at most 14.5 or the accuracy is not 0. -/
theorem osuSubValues_nonneg (m : Libm F) (hm : m.Sound) (s : Score) (beatmap : Beatmap F)
    (h300 : 0 ≤ s._num300) (h100 : 0 ≤ s._num100) (h50 : 0 ≤ s._num50)
    (hMiss : 0 ≤ s._numMiss) (hCombo : 0 ≤ s._maxCombo) (hC : 0 ≤ beatmap.NumHitCircles)
    (hAR : s._mods.Hidden = true → beatmap.DifficultyAttribute s._mods .AR ≤ 37)
    (hp : beatmap.DifficultyAttribute s._mods .OD ≤ 14.5 ∨
      (OsuScore.Accuracy s : Option F) ≠ some 0) :
    ∃ a sp ac : F, OsuScore.computeAimValue m s beatmap = some a ∧
      OsuScore.computeSpeedValue m s beatmap = some sp ∧
      OsuScore.computeAccValue m s beatmap = some ac ∧ 0 ≤ a ∧ 0 ≤ sp ∧ 0 ≤ ac := by
  have hT : 0 ≤ OsuScore.TotalHits s := by simp only [OsuScore.TotalHits]; omega
  have hl := lengthBonus_ge m hm (OsuScore.TotalHits s) hT
  have hH : (0 : F) ≤ (if s._mods.Hidden then
      1 + 0.04 * (12 - beatmap.DifficultyAttribute s._mods .AR) else 1) := by
    split_ifs with h
    · have := hAR h
      linarith
    · exact zero_le_one
  obtain ⟨f₁, f₂, t, acc, hf₁, -, hf₂, -, ht, hacc, -, ea⟩ :=
    computeAimValue_eq m hm s beatmap h300 h100 h50 hMiss hCombo
  obtain ⟨g₁, f₂', t', acc', hg₁, -, hf₂', -, ht', hacc', -, es⟩ :=
    computeSpeedValue_eq m hm s beatmap h300 h100 h50 hMiss hCombo hp
  obtain ⟨ac, ec, hac⟩ := computeAccValue_nonneg m hm s beatmap hT hC
  refine ⟨_, _, ac, ea, es, ec, ?_, ?_, hac⟩
  · have hmax : (0 : F) ≤ max (OsuScore.flashlightBonus s (OsuScore.TotalHits s))
        (OsuScore.approachRateBonus t (OsuScore.aimApproachRateFactor
          (beatmap.DifficultyAttribute s._mods .AR))) :=
      le_trans zero_le_one (le_trans
        (approachRateBonus_ge_one ht.le (aimApproachRateFactor_nonneg _)) (le_max_right _ _))
    have hb := aimValueBase_pos m s beatmap
    exact mul_nonneg (mul_nonneg (mul_nonneg (mul_nonneg (mul_nonneg (mul_nonneg
      (mul_nonneg hb.le (by linarith)) hf₁) hf₂) hH) hmax) (by linarith)) (by positivity)
  · have hbonus := approachRateBonus_ge_one ht'.le (speedApproachRateFactor_nonneg
      (beatmap.DifficultyAttribute s._mods .AR))
    have hb := speedValueBase_pos s beatmap
    exact mul_nonneg (mul_nonneg (mul_nonneg (mul_nonneg (mul_nonneg (mul_nonneg
      (mul_nonneg hb.le (by linarith)) hg₁) hf₂') (by linarith)) hH)
      (mul_nonneg (by positivity) (hm.pow_nonneg _ _ hacc'))) (hm.pow_nonneg _ _ (by norm_num))

/-- The combine step of lines 74-80 on non-negative sub-values: the four calls of
`pow` are defined. -/
theorem osuCombine_some (m : Libm F) (hm : m.Sound) (a sp c x : F)
    (ha : 0 ≤ a) (hsp : 0 ≤ sp) (hc : 0 ≤ c) :
    (do
      let pAim ← fpow m a 1.1
      let pSpeed ← fpow m sp 1.1
      let pAcc ← fpow m c 1.1
      let p ← fpow m (pAim + pSpeed + pAcc) (1 / 1.1)
      pure (p * x)) =
    some (m.pow (m.pow a 1.1 + m.pow sp 1.1 + m.pow c 1.1) (1 / 1.1) * x) := by
  have pa := hm.pow_nonneg a 1.1 ha
  have pb := hm.pow_nonneg sp 1.1 hsp
  have pc := hm.pow_nonneg c 1.1 hc
  have hsum : 0 ≤ m.pow a 1.1 + m.pow sp 1.1 + m.pow c 1.1 := by linarith
  simp only [fpow_of_nonneg m ha (by norm_num : (0 : F) ≤ 1.1),
    fpow_of_nonneg m hsp (by norm_num : (0 : F) ≤ 1.1),
    fpow_of_nonneg m hc (by norm_num : (0 : F) ≤ 1.1),
    fpow_of_nonneg m hsum (by norm_num : (0 : F) ≤ 1 / 1.1),
    Option.pure_def, Option.bind_eq_bind, Option.some_bind]

/-- In Osu mode `TotalValue()` is a finite number for every play with non-negative
counters, max combo and hit-circle count, with an approach rate of at most 37 under
Hidden and an overall difficulty of at most 14.5 or an accuracy other than 0, unless
SpunOut is set and the play has no judged object. -/
theorem osuTotalValue_some (m : Libm F) (hm : m.Sound) (s : Score) (beatmap : Beatmap F)
    (h300 : 0 ≤ s._num300) (h100 : 0 ≤ s._num100) (h50 : 0 ≤ s._num50)
    (hMiss : 0 ≤ s._numMiss) (hCombo : 0 ≤ s._maxCombo) (hC : 0 ≤ beatmap.NumHitCircles)
    (hAR : s._mods.Hidden = true → beatmap.DifficultyAttribute s._mods .AR ≤ 37)
    (hp : beatmap.DifficultyAttribute s._mods .OD ≤ 14.5 ∨
      (OsuScore.Accuracy s : Option F) ≠ some 0)
    (h : s._mods.SpunOut = true → OsuScore.TotalHits s ≠ 0) :
    ∃ v : F, OsuScore.TotalValue m s beatmap = some v := by
  obtain ⟨a, sp, ac, ea, es, ec, ha, hsp, hac⟩ :=
    osuSubValues_nonneg m hm s beatmap h300 h100 h50 hMiss hCombo hC hAR hp
  obtain ⟨x, ex⟩ := osuMultiplier_some m s beatmap h
  by_cases hR : s._mods.Relax = true ∨ s._mods.Relax2 = true ∨ s._mods.Autoplay = true
  · exact ⟨0, by simp only [OsuScore.TotalValue, OsuScore.construct, OsuScore.computeTotalValue,
      hR, if_true]⟩
  · refine ⟨m.pow (m.pow a 1.1 + m.pow sp 1.1 + m.pow ac 1.1) (1 / 1.1) * x, ?_⟩
    simp only [OsuScore.TotalValue, OsuScore.construct, OsuScore.computeTotalValue,
      hR, if_false, ea, es, ec, ex, Option.bind_eq_bind, Option.some_bind]
    exact osuCombine_some m hm a sp ac x ha hsp hac

/-! ### The further facts about the maths library -/

theorem ratLibm_exact : ratLibm.Exact where
  pow_zero := fun x => by
    show x ^ ⌈(0 : ℚ)⌉ = 1
    rw [Int.ceil_zero, zpow_zero]
  pow_le_pow_left := fun x y z hx hxy hz => by
    obtain ⟨n, hn⟩ := Int.eq_ofNat_of_zero_le (Int.ceil_nonneg hz)
    show x ^ ⌈z⌉ ≤ y ^ ⌈z⌉
    rw [hn, zpow_natCast, zpow_natCast]
    exact pow_le_pow_left₀ hx hxy n
  pow_div := fun x y z _ _ => div_zpow x y _
  log10_mono := fun x y _ hxy =>
    Nat.cast_le.2 (Nat.log_mono_right (Nat.floor_mono hxy))

/-- The real power and decimal logarithm satisfy `Libm.Exact`. -/
theorem real_exact :
    Libm.Exact ({ pow := fun x y => x ^ y, exp := Real.exp, log10 := Real.logb 10 } : Libm ℝ) where
  pow_zero := Real.rpow_zero
  pow_le_pow_left := fun x y z hx hxy hz => Real.rpow_le_rpow hx hxy hz
  pow_div := fun x y z hx hy => Real.div_rpow hx hy z
  log10_mono := fun x y hx hxy => Real.logb_le_logb_of_le (by norm_num) hx hxy

/-- The real power satisfies `Libm.Mean`. -/
theorem real_mean :
    Libm.Mean ({ pow := fun x y => x ^ y, exp := Real.exp, log10 := Real.logb 10 } : Libm ℝ) where
  pow_pow_inv := fun x z hx hz => by
    show (x ^ z) ^ (1 / z) = x
    rw [← Real.rpow_mul hx, mul_one_div_cancel (ne_of_gt hz), Real.rpow_one]
  add_pow_le := fun x y z hx hy hz => by
    lift x to NNReal using hx
    lift y to NNReal using hy
    have h := NNReal.add_rpow_le_rpow_add x y hz
    show (x : ℝ) ^ z + (y : ℝ) ^ z ≤ ((x : ℝ) + (y : ℝ)) ^ z
    exact_mod_cast h

/-! ### The legacy accuracy percentage -/

/-- On the legacy path with a positive hit-circle count the percentage is the
quotient of line 195, replaced by 0 when negative. -/
theorem legacyPercentage_pos (s : Score) (beatmap : Beatmap F)
    (hv : beatmap.ScoreVersion ≠ EScoreVersion.ScoreV2) (hC : 0 < beatmap.NumHitCircles) :
    OsuScore.betterAccuracyPercentage s beatmap = some (beatmap.NumHitCircles,
      max 0 ((((s._num300 - (OsuScore.TotalHits s - beatmap.NumHitCircles)) * 6 + s._num100 * 2
        + s._num50 : Int) : F) / ((beatmap.NumHitCircles * 6 : Int) : F))) := by
  have hne : ((beatmap.NumHitCircles * 6 : Int) : F) ≠ 0 := by
    have : beatmap.NumHitCircles * 6 ≠ 0 := by omega
    exact_mod_cast this
  have hgt : beatmap.NumHitCircles > 0 := hC
  simp only [OsuScore.betterAccuracyPercentage, hv, hgt, if_true, if_false, fdiv_of_ne _ hne,
    Option.pure_def, Option.bind_eq_bind, Option.some_bind]
  split_ifs with hneg
  · rw [max_eq_left hneg.le]
  · rw [max_eq_right (not_lt.1 hneg)]

/-- On the legacy path without hit circles the percentage is 0. -/
theorem legacyPercentage_zero (s : Score) (beatmap : Beatmap F)
    (hv : beatmap.ScoreVersion ≠ EScoreVersion.ScoreV2) (hC : beatmap.NumHitCircles ≤ 0) :
    OsuScore.betterAccuracyPercentage s beatmap = some (beatmap.NumHitCircles, 0) := by
  have hgt : ¬ beatmap.NumHitCircles > 0 := not_lt.2 hC
  simp [OsuScore.betterAccuracyPercentage, hv, hgt]

/-- The quotient of line 195 is `1 - (4*num100 + 5*num50 + 6*numMiss) / (6*C)`. -/
theorem legacyQuotient_eq (s : Score) (c : Int) (hC : 0 < c) :
    (((s._num300 - (OsuScore.TotalHits s - c)) * 6 + s._num100 * 2 + s._num50 : Int) : F) /
      ((c * 6 : Int) : F) =
    1 - (4 * (s._num100 : F) + 5 * (s._num50 : F) + 6 * (s._numMiss : F)) / (6 * (c : F)) := by
  have hc : (c : F) ≠ 0 := by exact_mod_cast (ne_of_gt hC)
  simp only [OsuScore.TotalHits]
  push_cast
  field_simp
  ring

/-! ### The Hidden and Flashlight branches of Catch mode -/

/-- Line 81 is the only statement of the `Flashlight` branch that updates `_value`. -/
theorem flashlightStep_accumulated (approachRate lengthBonus : F) (v : CatchScore.Vars F) :
    (CatchScore.flashlightStep approachRate lengthBonus v)._value
      = v._value * (1.35 * lengthBonus) := rfl

/-- Lines 84 and 87 multiply `value` by `0.1 * (AR - 8) + 1` above approach rate 8, by
`0.06 * (8 - AR) + 1` below, and leave it unchanged at 8. -/
theorem flashlightStep_value (approachRate lengthBonus : F) (v : CatchScore.Vars F) :
    (CatchScore.flashlightStep approachRate lengthBonus v).value =
      if approachRate > 8 then v.value * (0.1 * (approachRate - 8) + 1)
      else if approachRate < 8 then v.value * (0.06 * (8 - approachRate) + 1)
      else v.value := by
  unfold CatchScore.flashlightStep
  by_cases h : approachRate > 8
  · have h2 : ¬ approachRate < 8 := not_lt.2 (le_of_lt h)
    simp [h, h2]
  · simp [h]

/-- The body of the `Hidden` branch multiplies by `hiddenMultiplier`. -/
theorem hiddenStep_eq_mul (approachRate v : F) :
    CatchScore.hiddenStep approachRate v = v * hiddenMultiplier approachRate := by
  unfold hiddenMultiplier CatchScore.hiddenStep
  split_ifs <;> ring

theorem hiddenMultiplier_le_nine {a : F} (h : a ≤ 9) :
    hiddenMultiplier a = (1.05 + 0.10 * (10 - a)) * (1 + 0.04 * (8 - a)) := by
  have h10 : a ≤ 10 := le_trans h (by norm_num)
  simp [hiddenMultiplier, CatchScore.hiddenStep, h, h10]

theorem hiddenMultiplier_nine_ten {a : F} (h9 : 9 < a) (h10 : a ≤ 10) :
    hiddenMultiplier a = 1.05 + 0.10 * (10 - a) := by
  simp [hiddenMultiplier, CatchScore.hiddenStep, not_le.2 h9, h10]

theorem hiddenMultiplier_gt_ten {a : F} (h : 10 < a) :
    hiddenMultiplier a = 1.01 + 0.04 * (11 - min 11 a) := by
  have h9 : ¬ a ≤ 9 := not_le.2 (lt_trans (by norm_num) h)
  simp [hiddenMultiplier, CatchScore.hiddenStep, not_le.2 h, h9, h]

/-- Up to approach rate 9 the Hidden multiplier does not grow with the approach
rate. -/
theorem hiddenMultiplier_antitone_le_nine {a₁ a₂ : F} (h : a₁ ≤ a₂) (h9 : a₂ ≤ 9) :
    hiddenMultiplier a₂ ≤ hiddenMultiplier a₁ := by
  rw [hiddenMultiplier_le_nine h9, hiddenMultiplier_le_nine (le_trans h h9)]
  have e1 : (0 : F) ≤ 1.05 + 0.10 * (10 - a₂) := by linarith
  have e2 : (0 : F) ≤ 1 + 0.04 * (8 - a₁) := by linarith
  exact mul_le_mul (by linarith) (by linarith) (by linarith) (by linarith)

/-- Above approach rate 9 the Hidden multiplier does not grow with the approach
rate. -/
theorem hiddenMultiplier_antitone_gt_nine {a₁ a₂ : F} (h : a₁ ≤ a₂) (h9 : 9 < a₁) :
    hiddenMultiplier a₂ ≤ hiddenMultiplier a₁ := by
  have h9' : 9 < a₂ := lt_of_lt_of_le h9 h
  by_cases h1 : a₁ ≤ 10
  · rw [hiddenMultiplier_nine_ten h9 h1]
    by_cases h2 : a₂ ≤ 10
    · rw [hiddenMultiplier_nine_ten h9' h2]
      linarith
    · rw [hiddenMultiplier_gt_ten (not_le.1 h2)]
      have : (0 : F) ≤ 11 - min 11 a₂ := sub_nonneg.2 (min_le_left _ _)
      have : min 11 a₂ ≥ 10 := le_min (by norm_num) (le_of_lt (not_le.1 h2))
      linarith
  · have h1' : 10 < a₁ := not_le.1 h1
    rw [hiddenMultiplier_gt_ten h1', hiddenMultiplier_gt_ten (lt_of_lt_of_le h1' h)]
    have : min 11 a₁ ≤ min 11 a₂ := min_le_min le_rfl h
    linarith

/-- What the constructor of `CatchScore` stores for a play without Relax, Relax2 and
Autoplay, without misses and `numKatu`, with a successful hit, at the chart's
positive max combo: the miss, combo and accuracy factors are 1, and the modifier
branches act on the product of the base value, the length bonus and the
approach-rate factor. -/
theorem catchConstruct_perfect (m : Libm F) (hm : m.Sound) (s : Score) (beatmap : Beatmap F)
    (value : F)
    (hR : s._mods.Relax = false) (hR2 : s._mods.Relax2 = false) (hA : s._mods.Autoplay = false)
    (hMiss : s._numMiss = 0) (hKatu : s._numKatu = 0)
    (hHits : 0 < CatchScore.TotalSuccessfulHits s)
    (hpos : 0 < beatmap.DifficultyAttribute s._mods .MaxCombo)
    (hc : (s._maxCombo : F) = beatmap.DifficultyAttribute s._mods .MaxCombo) :
    CatchScore.construct m s beatmap value = some
      (let lengthBonus : F := 0.84 + 0.38 * min 1 (((CatchScore.totalComboHits s : F) * 0.5 +
          beatmap.DifficultyAttribute s._mods .DirectionChangeCount * 0.9) / 1700)
       let approachRate := beatmap.DifficultyAttribute s._mods .AR
       let _value : F :=
          (5 * max 1 (beatmap.DifficultyAttribute s._mods .Aim / 0.0049) - 4) ^ 2 / 100000 *
            lengthBonus * CatchScore.approachRateFactor approachRate
       let _value := if s._mods.Hidden then CatchScore.hiddenStep approachRate _value else _value
       let v : CatchScore.Vars F :=
          if s._mods.Flashlight then
            CatchScore.flashlightStep approachRate lengthBonus { _value := _value, value := value }
          else { _value := _value, value := value }
       let _value := v._value
       let value := if s._mods.HalfTime then v.value * 0.90 else v.value
       let _value := if s._mods.NoFail then _value * 0.90 else _value
       let _value := if s._mods.SpunOut then _value * 0.95 else _value
       { _value := _value, value := value }) := by
  simp only [CatchScore.construct, hR, hR2, hA, hMiss,
    catchComboStep_full m hm _ _ _ hpos hc, catchAccuracy_perfect s hMiss hKatu hHits]
  simp

/-! ### Combo scaling and the doubletap exponent -/

/-- The quotient of the two powers in the combo scaling, for a positive chart max
combo `b` and a non-negative player max combo `c`: it is non-negative, at least 1
when `b ≤ c`, and the power of `c / b`, at most 1, when `c < b`. -/
theorem comboQuotient_props (m : Libm F) (hm : m.Sound) (he : m.Exact) (e : F) (he0 : 0 ≤ e)
    (c : Int) (hc : 0 ≤ c) (b : F) (hb : 0 < b) :
    fdiv (m.pow (c : F) e) (m.pow b e) = some (m.pow (c : F) e / m.pow b e) ∧
    0 ≤ min (m.pow (c : F) e / m.pow b e) 1 ∧
    (b ≤ (c : F) → min (m.pow (c : F) e / m.pow b e) 1 = 1) ∧
    ((c : F) < b → min (m.pow (c : F) e / m.pow b e) 1 = m.pow ((c : F) / b) e) := by
  have hp : 0 < m.pow b e := hm.pow_pos b e hb
  have hcF : (0 : F) ≤ (c : F) := by exact_mod_cast hc
  have hq : 0 ≤ m.pow (c : F) e / m.pow b e := div_nonneg (hm.pow_nonneg _ _ hcF) hp.le
  refine ⟨fdiv_of_ne _ (ne_of_gt hp), le_min hq zero_le_one, fun hbc => ?_, fun hcb => ?_⟩
  · apply min_eq_right
    rw [le_div_iff₀ hp, one_mul]
    exact he.pow_le_pow_left b c e hb.le hbc he0
  · rw [← he.pow_div (c : F) b e hcF hb.le]
    apply min_eq_left
    exact hm.pow_le_one _ e (div_nonneg hcF hb.le) ((div_le_one hb).2 hcb.le) he0

/-- The conditional of line 176 is `max(0, num50 - hits/500)`. -/
theorem doubletapExponent_eq_max (n50 hits : Int) :
    (OsuScore.doubletapExponent n50 hits : F) = max 0 ((n50 : F) - (hits : F) / 500) := by
  unfold OsuScore.doubletapExponent
  split_ifs with h
  · rw [max_eq_left (by linarith)]
  · rw [max_eq_right (by linarith [not_lt.1 h])]

/-! ### The combine step -/

/-- Without NoFail and SpunOut the `multiplier` of `computeTotalValue` is `1.12`. -/
theorem osuMultiplier_plain (m : Libm F) (s : Score) (beatmap : Beatmap F)
    (hNF : s._mods.NoFail = false) (hSO : s._mods.SpunOut = false) :
    OsuScore.multiplier m s beatmap = some 1.12 := by
  simp [OsuScore.multiplier, hNF, hSO]

/-- The generalized mean of three non-negative numbers lies between their maximum
and their sum. -/
theorem mean_bounds (m : Libm F) (hm : m.Sound) (he : m.Exact) (hmean : m.Mean)
    (p : F) (hp : 1 ≤ p) (a b c : F) (ha : 0 ≤ a) (hb : 0 ≤ b) (hc : 0 ≤ c) :
    max a (max b c) ≤ m.pow (m.pow a p + m.pow b p + m.pow c p) (1 / p) ∧
    m.pow (m.pow a p + m.pow b p + m.pow c p) (1 / p) ≤ a + b + c := by
  have hp0 : 0 < p := lt_of_lt_of_le zero_lt_one hp
  have hq : 0 ≤ 1 / p := by positivity
  have pa := hm.pow_nonneg a p ha
  have pb := hm.pow_nonneg b p hb
  have pc := hm.pow_nonneg c p hc
  have la : a ≤ m.pow (m.pow a p + m.pow b p + m.pow c p) (1 / p) := by
    have h := he.pow_le_pow_left (m.pow a p) (m.pow a p + m.pow b p + m.pow c p) (1 / p) pa
      (by linarith) hq
    rwa [hmean.pow_pow_inv a p ha hp0] at h
  have lb : b ≤ m.pow (m.pow a p + m.pow b p + m.pow c p) (1 / p) := by
    have h := he.pow_le_pow_left (m.pow b p) (m.pow a p + m.pow b p + m.pow c p) (1 / p) pb
      (by linarith) hq
    rwa [hmean.pow_pow_inv b p hb hp0] at h
  have lc : c ≤ m.pow (m.pow a p + m.pow b p + m.pow c p) (1 / p) := by
    have h := he.pow_le_pow_left (m.pow c p) (m.pow a p + m.pow b p + m.pow c p) (1 / p) pc
      (by linarith) hq
    rwa [hmean.pow_pow_inv c p hc hp0] at h
  refine ⟨max_le la (max_le lb lc), ?_⟩
  have s1 := hmean.add_pow_le a b p ha hb hp
  have s2 := hmean.add_pow_le (a + b) c p (by linarith) hc hp
  have h := he.pow_le_pow_left (m.pow a p + m.pow b p + m.pow c p) (m.pow (a + b + c) p) (1 / p)
    (by linarith) (by linarith) hq
  rwa [hmean.pow_pow_inv (a + b + c) p (by linarith) hp0] at h

end Basic

/-! ## Disqualifying modifiers -/

section Claims

variable {F : Type} [LinearOrderedField F]

/-- C1: in Catch mode, when the modifier set contains Relax, Relax2 or Autoplay,
`TotalValue()` is exactly 0, for every choice of counters, max combo, difficulty
attributes and other modifiers. -/
theorem catch_totalValue_unranked (m : Libm F) (s : Score) (beatmap : Beatmap F) (value : F)
    (h : s._mods.Relax = true ∨ s._mods.Relax2 = true ∨ s._mods.Autoplay = true) :
    CatchScore.TotalValue m s beatmap value = some 0 := by
  simp [CatchScore.TotalValue, CatchScore.construct, h]

theorem catch_totalValue_unranked_witness :
    ((samplePlay autoplayMods)._mods.Relax = true ∨
      (samplePlay autoplayMods)._mods.Relax2 = true ∨
      (samplePlay autoplayMods)._mods.Autoplay = true) ∧
    CatchScore.TotalValue ratLibm
      (samplePlay autoplayMods) sampleBeatmap 1 = some 0 :=
  ⟨Or.inr (Or.inr rfl), catch_totalValue_unranked _ _ _ _ (Or.inr (Or.inr rfl))⟩

/-- C2: in Osu mode, when the modifier set contains Relax, Relax2 or Autoplay,
`computeTotalValue` stores 0 whatever the three sub-values are (the combine step is
not reached), so `TotalValue()` is exactly 0 for every choice of counters, max
combo and difficulty attributes. -/
theorem osu_totalValue_unranked (m : Libm F) (s : Score) (beatmap : Beatmap F)
    (h : s._mods.Relax = true ∨ s._mods.Relax2 = true ∨ s._mods.Autoplay = true) :
    (∀ _aimValue _speedValue _accValue : Option F,
      OsuScore.computeTotalValue m s beatmap _aimValue _speedValue _accValue = some 0) ∧
    OsuScore.TotalValue m s beatmap = some 0 := by
  have key : ∀ _aimValue _speedValue _accValue : Option F,
      OsuScore.computeTotalValue m s beatmap _aimValue _speedValue _accValue = some 0 := by
    intro a b c
    simp [OsuScore.computeTotalValue, h]
  exact ⟨key, key _ _ _⟩

theorem osu_totalValue_unranked_witness :
    ((samplePlay { Relax := true, Hidden := true })._mods.Relax = true ∨
      (samplePlay { Relax := true, Hidden := true })._mods.Relax2 = true ∨
      (samplePlay { Relax := true, Hidden := true })._mods.Autoplay = true) ∧
    OsuScore.computeTotalValue ratLibm (samplePlay { Relax := true, Hidden := true })
      sampleBeatmap (some 5000) (some 7000) none = some 0 ∧
    OsuScore.TotalValue ratLibm (samplePlay { Relax := true, Hidden := true })
      sampleBeatmap = some 0 :=
  ⟨Or.inl rfl,
    (osu_totalValue_unranked ratLibm _ sampleBeatmap (Or.inl rfl)).1 _ _ _,
    (osu_totalValue_unranked ratLibm _ sampleBeatmap (Or.inl rfl)).2⟩

/-! ## Accuracy -/

/-- C3: in both modes `Accuracy()` is a number of the closed interval from 0 to 1,
for all values of the counters (in particular for all non-negative ones). -/
theorem accuracy_mem_unit (s : Score) :
    (∃ a : F, CatchScore.Accuracy s = some a ∧ 0 ≤ a ∧ a ≤ 1) ∧
    (∃ a : F, OsuScore.Accuracy s = some a ∧ 0 ≤ a ∧ a ≤ 1) := by
  constructor
  · by_cases h : CatchScore.TotalHits s = 0
    · exact ⟨0, by simp [CatchScore.Accuracy, h], le_rfl, zero_le_one⟩
    · exact ⟨_, catchAccuracy_of_ne h, Clamp_nonneg _, Clamp_le_one _⟩
  · by_cases h : OsuScore.TotalHits s = 0
    · exact ⟨0, by simp [OsuScore.Accuracy, h], le_rfl, zero_le_one⟩
    · exact ⟨_, osuAccuracy_of_ne h, Clamp_nonneg _, Clamp_le_one _⟩

/-- C4: in both modes, when `TotalHits()` is 0 `Accuracy()` returns exactly 0 without
evaluating the quotient (whose divisor would be zero), and when `TotalHits()` is
not 0 the divisor of the quotient is not zero and `Accuracy()` is the clamped
quotient. -/
theorem accuracy_guard (s : Score) :
    (CatchScore.TotalHits s = 0 →
      (CatchScore.Accuracy s : Option F) = some 0 ∧
      fdiv (CatchScore.TotalSuccessfulHits s : F) (CatchScore.TotalHits s : F) = none) ∧
    (CatchScore.TotalHits s ≠ 0 →
      ((CatchScore.TotalHits s : Int) : F) ≠ 0 ∧
      (CatchScore.Accuracy s : Option F) = some
        (Clamp ((CatchScore.TotalSuccessfulHits s : F) / (CatchScore.TotalHits s : F)) 0 1)) ∧
    (OsuScore.TotalHits s = 0 →
      (OsuScore.Accuracy s : Option F) = some 0 ∧
      fdiv ((s._num50 * 50 + s._num100 * 100 + s._num300 * 300 : Int) : F)
        ((OsuScore.TotalHits s * 300 : Int) : F) = none) ∧
    (OsuScore.TotalHits s ≠ 0 →
      ((OsuScore.TotalHits s * 300 : Int) : F) ≠ 0 ∧
      (OsuScore.Accuracy s : Option F) = some
        (Clamp (((s._num50 * 50 + s._num100 * 100 + s._num300 * 300 : Int) : F) /
          ((OsuScore.TotalHits s * 300 : Int) : F)) 0 1)) := by
  refine ⟨fun h => ⟨by simp [CatchScore.Accuracy, h], by simp [h, fdiv_zero]⟩,
    fun h => ⟨by exact_mod_cast h, catchAccuracy_of_ne h⟩,
    fun h => ⟨by simp [OsuScore.Accuracy, h], by simp [h, fdiv_zero]⟩,
    fun h => ⟨?_, osuAccuracy_of_ne h⟩⟩
  have h3 : OsuScore.TotalHits s * 300 ≠ 0 := mul_ne_zero h (by norm_num)
  exact_mod_cast h3

theorem accuracy_guard_witness :
    (CatchScore.Accuracy emptyPlay : Option ℚ) = some 0 ∧
    (OsuScore.Accuracy emptyPlay : Option ℚ) = some 0 :=
  ⟨((accuracy_guard emptyPlay).1 rfl).1, ((accuracy_guard emptyPlay).2.2.1 rfl).1⟩

/-- C5: in both modes, for non-negative counters, raising `num300` by `k` while
lowering the worse counters by a total of `k` (`num100` by `a`, `num50` by `b`,
`numMiss` by `c`, and in Catch `numKatu` by `d`, so `k = a + b + c + d` in Catch and
`k = a + b + c` in Osu), each staying non-negative, leaves `TotalHits()` unchanged
and does not lower `Accuracy()`. -/
theorem accuracy_mono (s : Score) (a b c d : Int) (h300 : 0 ≤ s._num300)
    (ha : 0 ≤ a) (ha1 : a ≤ s._num100) (hb : 0 ≤ b) (hb1 : b ≤ s._num50)
    (hc : 0 ≤ c) (hc1 : c ≤ s._numMiss) (hd : 0 ≤ d) (hd1 : d ≤ s._numKatu) :
    (CatchScore.TotalHits (promote s a b c d) = CatchScore.TotalHits s ∧
      ∃ x y : F, CatchScore.Accuracy s = some x ∧
        CatchScore.Accuracy (promote s a b c d) = some y ∧ x ≤ y) ∧
    (OsuScore.TotalHits (promote s a b c 0) = OsuScore.TotalHits s ∧
      ∃ x y : F, OsuScore.Accuracy s = some x ∧
        OsuScore.Accuracy (promote s a b c 0) = some y ∧ x ≤ y) := by
  have hT : CatchScore.TotalHits (promote s a b c d) = CatchScore.TotalHits s := by
    simp only [CatchScore.TotalHits, promote]; ring
  have hU : OsuScore.TotalHits (promote s a b c 0) = OsuScore.TotalHits s := by
    simp only [OsuScore.TotalHits, promote]; ring
  refine ⟨⟨hT, ?_⟩, ⟨hU, ?_⟩⟩
  · by_cases h : CatchScore.TotalHits s = 0
    · exact ⟨0, 0, by simp [CatchScore.Accuracy, h], by simp [CatchScore.Accuracy, hT, h], le_rfl⟩
    · have h1 : CatchScore.TotalHits (promote s a b c d) ≠ 0 := by rw [hT]; exact h
      refine ⟨_, _, catchAccuracy_of_ne h, catchAccuracy_of_ne h1, Clamp_mono ?_⟩
      have hpos : (0 : F) ≤ ((CatchScore.TotalHits s : Int) : F) := by
        have : 0 ≤ CatchScore.TotalHits s := by simp only [CatchScore.TotalHits]; omega
        exact_mod_cast this
      have hS : CatchScore.TotalSuccessfulHits s ≤
          CatchScore.TotalSuccessfulHits (promote s a b c d) := by
        simp only [CatchScore.TotalSuccessfulHits, promote]; omega
      have hS1 : ((CatchScore.TotalSuccessfulHits s : Int) : F) ≤
          ((CatchScore.TotalSuccessfulHits (promote s a b c d) : Int) : F) := by
        exact_mod_cast hS
      rw [hT]
      exact div_le_div_of_nonneg_right hS1 hpos
  · by_cases h : OsuScore.TotalHits s = 0
    · exact ⟨0, 0, by simp [OsuScore.Accuracy, h], by simp [OsuScore.Accuracy, hU, h], le_rfl⟩
    · have h1 : OsuScore.TotalHits (promote s a b c 0) ≠ 0 := by rw [hU]; exact h
      refine ⟨_, _, osuAccuracy_of_ne h, osuAccuracy_of_ne h1, Clamp_mono ?_⟩
      have hpos : (0 : F) ≤ ((OsuScore.TotalHits s * 300 : Int) : F) := by
        have : 0 ≤ OsuScore.TotalHits s * 300 := by simp only [OsuScore.TotalHits]; omega
        exact_mod_cast this
      have hS : s._num50 * 50 + s._num100 * 100 + s._num300 * 300 ≤
          (promote s a b c 0)._num50 * 50 + (promote s a b c 0)._num100 * 100
            + (promote s a b c 0)._num300 * 300 := by
        simp only [promote]; omega
      have hS1 : ((s._num50 * 50 + s._num100 * 100 + s._num300 * 300 : Int) : F) ≤
          (((promote s a b c 0)._num50 * 50 + (promote s a b c 0)._num100 * 100
            + (promote s a b c 0)._num300 * 300 : Int) : F) := by
        exact_mod_cast hS
      rw [hU]
      exact div_le_div_of_nonneg_right hS1 hpos

theorem accuracy_mono_witness :
    (CatchScore.TotalHits (promote (samplePlay {}) 10 5 5 0) = CatchScore.TotalHits (samplePlay {}) ∧
      ∃ x y : ℚ, CatchScore.Accuracy (samplePlay {}) = some x ∧
        CatchScore.Accuracy (promote (samplePlay {}) 10 5 5 0) = some y ∧ x ≤ y) ∧
    (OsuScore.TotalHits (promote (samplePlay {}) 10 5 5 0) = OsuScore.TotalHits (samplePlay {}) ∧
      ∃ x y : ℚ, OsuScore.Accuracy (samplePlay {}) = some x ∧
        OsuScore.Accuracy (promote (samplePlay {}) 10 5 5 0) = some y ∧ x ≤ y) :=
  accuracy_mono (samplePlay {}) 10 5 5 0 (by decide) (by decide) (by decide) (by decide)
    (by decide) (by decide) (by decide) (by decide) (by decide)

/-- C6 as stated fails on its example: for 950 perfect and 50 great hits the code
returns `29/30`, not `59/60`. -/
theorem osu_accuracy_play950_ne :
    (OsuScore.Accuracy play950 : Option ℚ) = some (29 / 30) ∧
    (OsuScore.Accuracy play950 : Option ℚ) ≠ some (59 / 60) := by
  have h : (OsuScore.Accuracy play950 : Option ℚ) = some (29 / 30) := by
    rw [osuAccuracy_quotient play950 (by decide) (by decide) (by decide) (by decide) (by decide)]
    simp only [play950]
    norm_num
  refine ⟨h, ?_⟩
  rw [h]
  norm_num

/-- C6, amended: in Osu mode, for non-negative counters with `TotalHits() > 0`,
`Accuracy()` is the exact quotient `(50*num50 + 100*num100 + 300*num300) / (300 *
(num50 + num100 + num300 + numMiss))`: the clamp leaves it unchanged and `numKatu`,
`numGeki` do not occur.  For 950 perfect and 50 great hits it is `29/30`. -/
theorem osu_accuracy_exact (s : Score) (h50 : 0 ≤ s._num50) (h100 : 0 ≤ s._num100)
    (h300 : 0 ≤ s._num300) (hMiss : 0 ≤ s._numMiss) (hT : 0 < OsuScore.TotalHits s) :
    (OsuScore.Accuracy s : Option F) = some
      ((50 * (s._num50 : F) + 100 * (s._num100 : F) + 300 * (s._num300 : F)) /
        (300 * ((s._num50 : F) + (s._num100 : F) + (s._num300 : F) + (s._numMiss : F)))) ∧
    (OsuScore.Accuracy play950 : Option F) = some (29 / 30) := by
  refine ⟨osuAccuracy_quotient s h50 h100 h300 hMiss hT, ?_⟩
  rw [osuAccuracy_quotient play950 (by decide) (by decide) (by decide) (by decide) (by decide)]
  simp only [play950]
  norm_num

theorem osu_accuracy_exact_witness :
    (0 : Int) ≤ (samplePlay {})._num50 ∧ 0 < OsuScore.TotalHits (samplePlay {}) ∧
    (OsuScore.Accuracy (samplePlay {}) : Option ℚ) = some
      ((50 * (5 : ℚ) + 100 * 40 + 300 * 950) / (300 * ((5 : ℚ) + 40 + 950 + 5))) := by
  have h := (osu_accuracy_exact (F := ℚ) (samplePlay {}) (by decide) (by decide) (by decide)
    (by decide) (by decide)).1
  refine ⟨by decide, by decide, ?_⟩
  rw [h]
  simp [samplePlay]

/-! ## Modifier corrections in Catch mode -/

/-- C7 on the code: for the play `halfTimePlay` (HalfTime, NoFail and SpunOut set, 1000
perfect hits, no miss, max combo equal to the chart's 1000) `TotalValue()` is
`base * lengthBonus * approachRateFactor * 0.90 * 0.95`: line 95 multiplies the
identifier `value`, not `_value`, so the HalfTime factor `0.90` is missing from the
value the claim gives, `base * lengthBonus * approachRateFactor * 0.90 * 0.90 * 0.95`. -/
theorem catch_halfTime_factor_missing :
    CatchScore.TotalValue ratLibm halfTimePlay sampleBeatmap 1 = some
      ((5 * max 1 (3 / 0.0049) - 4) ^ 2 / 100000 *
        (0.84 + 0.38 * min 1 ((1000 * 0.5 + 200 * 0.9) / 1700)) *
        CatchScore.approachRateFactor 9 * 0.90 * 0.95) ∧
    CatchScore.TotalValue ratLibm halfTimePlay sampleBeatmap 1 ≠ some
      ((5 * max 1 (3 / 0.0049) - 4) ^ 2 / 100000 *
        (0.84 + 0.38 * min 1 ((1000 * 0.5 + 200 * 0.9) / 1700)) *
        CatchScore.approachRateFactor 9 * 0.90 * 0.90 * 0.95) ∧
    (CatchScore.construct ratLibm halfTimePlay sampleBeatmap 1).map (fun v => v.value)
      = some (1 * 0.90) := by
  have h := catchConstruct_halfTime ratLibm ratLibm_sound halfTimePlay sampleBeatmap 1
    rfl rfl rfl rfl rfl rfl rfl rfl rfl rfl (by decide) (by simp [sampleBeatmap])
    (by simp [sampleBeatmap, halfTimePlay])
  have e : CatchScore.TotalValue ratLibm halfTimePlay sampleBeatmap 1 = some
      ((5 * max 1 (3 / 0.0049) - 4) ^ 2 / 100000 *
        (0.84 + 0.38 * min 1 ((1000 * 0.5 + 200 * 0.9) / 1700)) *
        CatchScore.approachRateFactor 9 * 0.90 * 0.95) := by
    rw [CatchScore.TotalValue, h]
    simp [sampleBeatmap, halfTimePlay, CatchScore.totalComboHits]
  refine ⟨e, ?_, ?_⟩
  · rw [e]
    simp only [CatchScore.approachRateFactor, ne_eq, Option.some.injEq]
    norm_num
  · rw [h]
    rfl

/-! ## Sign of the Osu sub-values -/

/-- C9 on the code: for the play without judged objects and with SpunOut, every
division of the three sub-values has a non-zero divisor, but line 72 of
`computeTotalValue` divides `NumSpinners()` by `numTotalHits = 0`, so the multiplier
and `TotalValue()` are not finite numbers. -/
theorem osu_spunOut_empty_division :
    OsuScore.TotalHits emptySpunOutPlay = 0 ∧
    fdiv (sampleBeatmap.NumSpinners : ℚ) ((OsuScore.TotalHits emptySpunOutPlay : Int) : ℚ)
      = none ∧
    (∃ a sp ac : ℚ, OsuScore.computeAimValue ratLibm emptySpunOutPlay sampleBeatmap = some a ∧
      OsuScore.computeSpeedValue ratLibm emptySpunOutPlay sampleBeatmap = some sp ∧
      OsuScore.computeAccValue ratLibm emptySpunOutPlay sampleBeatmap = some ac) ∧
    OsuScore.multiplier ratLibm emptySpunOutPlay sampleBeatmap = none ∧
    OsuScore.TotalValue ratLibm emptySpunOutPlay sampleBeatmap = none := by
  have hT : OsuScore.TotalHits emptySpunOutPlay = 0 := by decide
  obtain ⟨f₁, f₂, t, acc, -, -, -, -, -, -, -, ea⟩ :=
    computeAimValue_eq ratLibm ratLibm_sound emptySpunOutPlay sampleBeatmap
      (by decide) (by decide) (by decide) (by decide) (by decide)
  obtain ⟨g₁, f₂', t', acc', -, -, -, -, -, -, -, es⟩ :=
    computeSpeedValue_eq ratLibm ratLibm_sound emptySpunOutPlay sampleBeatmap
      (by decide) (by decide) (by decide) (by decide) (by decide)
      (Or.inl (by norm_num [sampleBeatmap]))
  obtain ⟨ac, ec, -⟩ := computeAccValue_nonneg ratLibm ratLibm_sound emptySpunOutPlay
    sampleBeatmap (by decide) (by decide)
  have hm := osuMultiplier_none ratLibm emptySpunOutPlay sampleBeatmap rfl hT
  refine ⟨hT, ?_, ⟨_, _, _, ea, es, ec⟩, hm, ?_⟩
  · rw [hT]
    exact fdiv_zero _
  · have hR : ¬ (emptySpunOutPlay._mods.Relax = true ∨ emptySpunOutPlay._mods.Relax2 = true ∨
        emptySpunOutPlay._mods.Autoplay = true) := by decide
    simp only [OsuScore.TotalValue, OsuScore.construct, OsuScore.computeTotalValue, hR, if_false,
      hm, Option.bind_eq_bind, Option.none_bind]

/-! ## Floor path of the base values -/

/-- C11: on the legacy (non-ScoreV2) path, when the hit-circle count is not positive
the accuracy percentage fed to the power-24 step is exactly 0 (and so is the accuracy
sub-value), and for every hit-circle count the percentage is at least 0: with a
positive count it is the quotient `((num300 - (TotalHits - numCircles))*6 + num100*2 +
num50) / (numCircles*6)`, replaced by 0 when negative. -/
theorem legacy_percentage_nonneg (s : Score) (beatmap : Beatmap F)
    (hv : beatmap.ScoreVersion ≠ EScoreVersion.ScoreV2) :
    (beatmap.NumHitCircles ≤ 0 →
      OsuScore.betterAccuracyPercentage s beatmap = some (beatmap.NumHitCircles, 0) ∧
      ∀ m : Libm F, OsuScore.computeAccValue m s beatmap = some 0) ∧
    (∃ p : F, OsuScore.betterAccuracyPercentage s beatmap = some (beatmap.NumHitCircles, p) ∧
      0 ≤ p ∧
      (0 < beatmap.NumHitCircles → p = max 0
        ((((s._num300 - (OsuScore.TotalHits s - beatmap.NumHitCircles)) * 6 + s._num100 * 2
          + s._num50 : Int) : F) / ((beatmap.NumHitCircles * 6 : Int) : F)))) := by
  constructor
  · intro hC
    have e := legacyPercentage_zero (F := F) s beatmap hv hC
    refine ⟨e, fun m => ?_⟩
    simp [OsuScore.computeAccValue, e]
  · by_cases hC : 0 < beatmap.NumHitCircles
    · exact ⟨_, legacyPercentage_pos s beatmap hv hC, le_max_left _ _, fun _ => rfl⟩
    · exact ⟨0, legacyPercentage_zero s beatmap hv (not_lt.1 hC), le_rfl,
        fun h => absurd h hC⟩

theorem legacy_percentage_nonneg_witness :
    sampleBeatmap.ScoreVersion ≠ EScoreVersion.ScoreV2 ∧
    (∃ p : ℚ, OsuScore.betterAccuracyPercentage (samplePlay {}) sampleBeatmap
        = some (sampleBeatmap.NumHitCircles, p) ∧ 0 ≤ p ∧
      (0 < sampleBeatmap.NumHitCircles → p = max 0
        (((((samplePlay {})._num300 - (OsuScore.TotalHits (samplePlay {})
            - sampleBeatmap.NumHitCircles)) * 6 + (samplePlay {})._num100 * 2
          + (samplePlay {})._num50 : Int) : ℚ) / ((sampleBeatmap.NumHitCircles * 6 : Int) : ℚ)))) ∧
    OsuScore.betterAccuracyPercentage (samplePlay {}) (flatBeatmap (0 : ℚ)) = some (0, 0) ∧
    OsuScore.computeAccValue ratLibm (samplePlay {}) (flatBeatmap (0 : ℚ)) = some 0 :=
  ⟨by decide,
    (legacy_percentage_nonneg (samplePlay {}) sampleBeatmap (by decide)).2,
    ((legacy_percentage_nonneg (samplePlay {}) (flatBeatmap (0 : ℚ)) (by decide)).1
      (by decide)).1,
    ((legacy_percentage_nonneg (samplePlay {}) (flatBeatmap (0 : ℚ)) (by decide)).1
      (by decide)).2 ratLibm⟩

/-- C18: on the legacy (non-ScoreV2) path, for non-negative `num100`, `num50`,
`numMiss` and a positive hit-circle count `C`, the accuracy percentage fed to the
power-24 step is `max(0, 1 - (4*num100 + 5*num50 + 6*numMiss) / (6*C))`; it never
exceeds 1, and it is 1 exactly when `num100 = num50 = numMiss = 0`. -/
theorem legacy_percentage_closed_form (s : Score) (beatmap : Beatmap F)
    (hv : beatmap.ScoreVersion ≠ EScoreVersion.ScoreV2)
    (h100 : 0 ≤ s._num100) (h50 : 0 ≤ s._num50) (hMiss : 0 ≤ s._numMiss)
    (hC : 0 < beatmap.NumHitCircles) :
    OsuScore.betterAccuracyPercentage s beatmap =
      some (beatmap.NumHitCircles, legacyPercentageSpec s beatmap.NumHitCircles) ∧
    (legacyPercentageSpec s beatmap.NumHitCircles : F) ≤ 1 ∧
    ((legacyPercentageSpec s beatmap.NumHitCircles : F) = 1 ↔
      s._num100 = 0 ∧ s._num50 = 0 ∧ s._numMiss = 0) := by
  have e100 : (0 : F) ≤ (s._num100 : F) := by exact_mod_cast h100
  have e50 : (0 : F) ≤ (s._num50 : F) := by exact_mod_cast h50
  have eMiss : (0 : F) ≤ (s._numMiss : F) := by exact_mod_cast hMiss
  have eC : (0 : F) < 6 * (beatmap.NumHitCircles : F) := by
    have : (0 : F) < (beatmap.NumHitCircles : F) := by exact_mod_cast hC
    linarith
  have hq : (0 : F) ≤ (4 * (s._num100 : F) + 5 * (s._num50 : F) + 6 * (s._numMiss : F)) /
      (6 * (beatmap.NumHitCircles : F)) := div_nonneg (by linarith) eC.le
  refine ⟨?_, ?_, ?_⟩
  · rw [legacyPercentage_pos s beatmap hv hC, legacyQuotient_eq s _ hC]
    rfl
  · exact max_le zero_le_one (by linarith)
  · unfold legacyPercentageSpec
    constructor
    · intro h
      have h1 : (1 : F) ≤ 1 - (4 * (s._num100 : F) + 5 * (s._num50 : F) + 6 * (s._numMiss : F)) /
          (6 * (beatmap.NumHitCircles : F)) := by
        rcases le_total (0 : F) (1 - (4 * (s._num100 : F) + 5 * (s._num50 : F)
          + 6 * (s._numMiss : F)) / (6 * (beatmap.NumHitCircles : F))) with h0 | h0
        · rw [max_eq_right h0] at h
          exact h.ge
        · rw [max_eq_left h0] at h
          exact absurd h (by norm_num)
      have h2 : (4 * (s._num100 : F) + 5 * (s._num50 : F) + 6 * (s._numMiss : F)) /
          (6 * (beatmap.NumHitCircles : F)) = 0 := le_antisymm (by linarith) hq
      have h3 : 4 * (s._num100 : F) + 5 * (s._num50 : F) + 6 * (s._numMiss : F) = 0 := by
        rcases div_eq_zero_iff.1 h2 with h | h
        · exact h
        · exact absurd h (ne_of_gt eC)
      have z100 : (s._num100 : F) = 0 := le_antisymm (by linarith) e100
      have z50 : (s._num50 : F) = 0 := le_antisymm (by linarith) e50
      have zMiss : (s._numMiss : F) = 0 := le_antisymm (by linarith) eMiss
      exact ⟨by exact_mod_cast z100, by exact_mod_cast z50, by exact_mod_cast zMiss⟩
    · rintro ⟨z100, z50, zMiss⟩
      simp [z100, z50, zMiss]

theorem legacy_percentage_closed_form_witness :
    sampleBeatmap.ScoreVersion ≠ EScoreVersion.ScoreV2 ∧ 0 < sampleBeatmap.NumHitCircles ∧
    OsuScore.betterAccuracyPercentage (samplePlay {}) sampleBeatmap =
      some (700, (legacyPercentageSpec (samplePlay {}) 700 : ℚ)) ∧
    (legacyPercentageSpec (samplePlay {}) 700 : ℚ) ≤ 1 :=
  ⟨by decide, by decide,
    (legacy_percentage_closed_form (samplePlay {}) sampleBeatmap (by decide) (by decide)
      (by decide) (by decide) (by decide)).1,
    (legacy_percentage_closed_form (samplePlay {}) sampleBeatmap (by decide) (by decide)
      (by decide) (by decide) (by decide)).2.1⟩

/-! ## Flashlight and Hidden in Catch mode -/

/-- C12 on the code: for the Flashlight play `flashlightPlay` the value that
`TotalValue()` returns is `base * lengthBonus * approachRateFactor * (1.35 *
lengthBonus)` at approach rate 7 and at approach rate 9: after line 81 no
AR-dependent factor reaches `_value`, because lines 84 and 87 multiply the
identifier `value`.  The factor they give `value` below approach rate 8 is
`0.06 * (8 - AR) + 1`, greater than 1, where the comment of line 87 says `-6%`. -/
theorem catch_flashlight_factor_misapplied :
    CatchScore.TotalValue ratLibm flashlightPlay lowArBeatmap 1 = some
      ((5 * max 1 (3 / 0.0049) - 4) ^ 2 / 100000 *
        (0.84 + 0.38 * min 1 ((1000 * 0.5 + 200 * 0.9) / 1700)) *
        CatchScore.approachRateFactor 7 *
        (1.35 * (0.84 + 0.38 * min 1 ((1000 * 0.5 + 200 * 0.9) / 1700)))) ∧
    (CatchScore.construct ratLibm flashlightPlay lowArBeatmap 1).map (fun v => v.value)
      = some (1 * (0.06 * (8 - 7) + 1)) ∧
    (1 : ℚ) < 0.06 * (8 - 7) + 1 ∧
    CatchScore.TotalValue ratLibm flashlightPlay sampleBeatmap 1 = some
      ((5 * max 1 (3 / 0.0049) - 4) ^ 2 / 100000 *
        (0.84 + 0.38 * min 1 ((1000 * 0.5 + 200 * 0.9) / 1700)) *
        CatchScore.approachRateFactor 9 *
        (1.35 * (0.84 + 0.38 * min 1 ((1000 * 0.5 + 200 * 0.9) / 1700)))) ∧
    (CatchScore.construct ratLibm flashlightPlay sampleBeatmap 1).map (fun v => v.value)
      = some (1 * (0.1 * (9 - 8) + 1)) := by
  have h7 := catchConstruct_perfect ratLibm ratLibm_sound flashlightPlay lowArBeatmap 1
    rfl rfl rfl rfl rfl (by decide) (by simp [lowArBeatmap])
    (by simp [lowArBeatmap, flashlightPlay, halfTimePlay])
  have h9 := catchConstruct_perfect ratLibm ratLibm_sound flashlightPlay sampleBeatmap 1
    rfl rfl rfl rfl rfl (by decide) (by simp [sampleBeatmap])
    (by simp [sampleBeatmap, flashlightPlay, halfTimePlay])
  refine ⟨?_, ?_, by norm_num, ?_, ?_⟩
  · rw [CatchScore.TotalValue, h7]
    simp [lowArBeatmap, flashlightPlay, flashlightMods, halfTimePlay, CatchScore.totalComboHits,
      CatchScore.flashlightStep]
  · rw [h7]
    simp [lowArBeatmap, flashlightPlay, flashlightMods, halfTimePlay, CatchScore.flashlightStep]
    norm_num
  · rw [CatchScore.TotalValue, h9]
    simp [sampleBeatmap, flashlightPlay, flashlightMods, halfTimePlay, CatchScore.totalComboHits,
      CatchScore.flashlightStep]
  · rw [h9]
    simp [sampleBeatmap, flashlightPlay, flashlightMods, halfTimePlay, CatchScore.flashlightStep]
    norm_num

/-- C13 on the code: for the Hidden play `hiddenPlay` on a chart of approach rate 9,
`TotalValue()` is `base * lengthBonus * approachRateFactor` times the two-branch
curve `1.05 + 0.10 * (10 - 9)` times the extra factor `1 + 0.04 * (8 - 9)`, and that
extra factor is `0.96`, less than 1: line 75 subtracts the approach rate from 8 where
its comment says `Additional 4% for each AR below 9`. -/
theorem catch_hidden_extra_factor_penalty :
    CatchScore.TotalValue ratLibm hiddenPlay sampleBeatmap 1 = some
      ((5 * max 1 (3 / 0.0049) - 4) ^ 2 / 100000 *
        (0.84 + 0.38 * min 1 ((1000 * 0.5 + 200 * 0.9) / 1700)) *
        CatchScore.approachRateFactor 9 *
        (1.05 + 0.10 * (10 - 9)) * (1 + 0.04 * (8 - 9))) ∧
    (1 + 0.04 * (8 - 9) : ℚ) = 0.96 ∧
    (1 + 0.04 * (8 - 9) : ℚ) < 1 := by
  have h := catchConstruct_perfect ratLibm ratLibm_sound hiddenPlay sampleBeatmap 1
    rfl rfl rfl rfl rfl (by decide) (by simp [sampleBeatmap])
    (by simp [sampleBeatmap, hiddenPlay, play950])
  refine ⟨?_, by norm_num, by norm_num⟩
  rw [CatchScore.TotalValue, h]
  simp [sampleBeatmap, hiddenPlay, hiddenMods, play950, CatchScore.totalComboHits,
    CatchScore.hiddenStep]
  norm_num

/-- C14 on the code: the Hidden multiplier is `1.104` at approach rate 9 and `1.14` at
approach rate 9.1, so the lower approach rate receives the smaller multiplier: the
extra factor of line 75 is `0.96` at 9 and is not applied above 9. -/
theorem catch_hidden_multiplier_not_antitone :
    (0 : ℚ) ≤ 9 ∧ (9 : ℚ) ≤ 9.1 ∧
    hiddenMultiplier (9 : ℚ) = 1.104 ∧ hiddenMultiplier (9.1 : ℚ) = 1.14 ∧
    hiddenMultiplier (9 : ℚ) < hiddenMultiplier (9.1 : ℚ) ∧
    ∀ v : ℚ, CatchScore.hiddenStep 9 v = v * 1.104 ∧ CatchScore.hiddenStep 9.1 v = v * 1.14 := by
  have e9 : hiddenMultiplier (9 : ℚ) = 1.104 := by
    rw [hiddenMultiplier_le_nine le_rfl]
    norm_num
  have e91 : hiddenMultiplier (9.1 : ℚ) = 1.14 := by
    rw [hiddenMultiplier_nine_ten (by norm_num) (by norm_num)]
    norm_num
  refine ⟨by norm_num, by norm_num, e9, e91, ?_, fun v => ?_⟩
  · rw [e9, e91]
    norm_num
  · rw [hiddenStep_eq_mul, hiddenStep_eq_mul, e9, e91]
    exact ⟨rfl, rfl⟩

/-! ## Factors of the Osu aim and speed sub-values -/

/-- C15: in the Osu aim sub-value, for non-negative counters and max combo, the
running value of `_aimValue` after the miss, combo and Hidden steps is multiplied by
exactly `max(flashlightBonus, approachRateBonus)`, then by the two accuracy factors.
Without Flashlight `flashlightBonus` is 1 and the factor is `approachRateBonus =
1 + (0.03 + 0.37 * t) * approachRateFactor` with `t = 1 / (1 + exp(-(0.007 * (hits -
400))))`; with or without Flashlight the factor is at least 1. -/
theorem osu_aim_vision_factor (m : Libm F) (hm : m.Sound) (s : Score) (beatmap : Beatmap F)
    (h300 : 0 ≤ s._num300) (h100 : 0 ≤ s._num100) (h50 : 0 ≤ s._num50)
    (hMiss : 0 ≤ s._numMiss) (hCombo : 0 ≤ s._maxCombo) :
    ∃ v₁ v₂ t acc : F,
      OsuScore.aimMissStep m s._numMiss (OsuScore.TotalHits s)
        (OsuScore.aimValueBase m s beatmap * OsuScore.lengthBonus m (OsuScore.TotalHits s))
        = some v₁ ∧
      OsuScore.comboStep m s._maxCombo (beatmap.DifficultyAttribute s._mods .MaxCombo) v₁
        = some v₂ ∧
      t = 1 / (1 + m.exp (-(0.007 * ((OsuScore.TotalHits s : F) - 400)))) ∧
      OsuScore.approachRateTotalHitsFactor m (OsuScore.TotalHits s) = some t ∧
      OsuScore.Accuracy s = some acc ∧
      OsuScore.computeAimValue m s beatmap = some
        ((if s._mods.Hidden then
            v₂ * (1 + 0.04 * (12 - beatmap.DifficultyAttribute s._mods .AR)) else v₂)
          * max (OsuScore.flashlightBonus s (OsuScore.TotalHits s))
              (OsuScore.approachRateBonus t
                (OsuScore.aimApproachRateFactor (beatmap.DifficultyAttribute s._mods .AR)))
          * (0.5 + acc / 2)
          * (0.98 + beatmap.DifficultyAttribute s._mods .OD ^ 2 / 2500)) ∧
      (s._mods.Flashlight = false →
        OsuScore.flashlightBonus s (OsuScore.TotalHits s) = (1 : F) ∧
        max (OsuScore.flashlightBonus s (OsuScore.TotalHits s))
          (OsuScore.approachRateBonus t
            (OsuScore.aimApproachRateFactor (beatmap.DifficultyAttribute s._mods .AR)))
          = 1 + (0.03 + 0.37 * t)
              * OsuScore.aimApproachRateFactor (beatmap.DifficultyAttribute s._mods .AR)) ∧
      1 ≤ max (OsuScore.flashlightBonus s (OsuScore.TotalHits s))
          (OsuScore.approachRateBonus t
            (OsuScore.aimApproachRateFactor (beatmap.DifficultyAttribute s._mods .AR))) := by
  have hh : s._numMiss ≤ OsuScore.TotalHits s := by
    simp only [OsuScore.TotalHits]; omega
  obtain ⟨f₁, -, -, e₁⟩ := aimMissStep_factor m hm s._numMiss _ hMiss hh
  obtain ⟨f₂, -, -, -, e₂⟩ :=
    osuComboStep_factor m hm s._maxCombo hCombo (beatmap.DifficultyAttribute s._mods .MaxCombo)
  obtain ⟨acc, eacc, -, -⟩ := osuAccuracy_mem (F := F) s
  have he := hm.exp_pos (-(0.007 * ((OsuScore.TotalHits s : F) - 400)))
  have hd : (0 : F) < 1 + m.exp (-(0.007 * ((OsuScore.TotalHits s : F) - 400))) := by linarith
  have et : OsuScore.approachRateTotalHitsFactor m (OsuScore.TotalHits s) = some
      (1 / (1 + m.exp (-(0.007 * ((OsuScore.TotalHits s : F) - 400))))) :=
    fdiv_of_ne _ (ne_of_gt hd)
  have ht : (0 : F) ≤ 1 / (1 + m.exp (-(0.007 * ((OsuScore.TotalHits s : F) - 400)))) :=
    (div_pos zero_lt_one hd).le
  have hbonus := approachRateBonus_ge_one ht
    (aimApproachRateFactor_nonneg (beatmap.DifficultyAttribute s._mods .AR))
  refine ⟨_, _, _, acc, e₁ _, e₂ _, rfl, et, eacc, ?_, fun hF => ?_,
    le_trans hbonus (le_max_right _ _)⟩
  · simp only [OsuScore.computeAimValue, e₁, e₂, et, eacc, Option.pure_def,
      Option.bind_eq_bind, Option.some_bind]
  · have hfl : OsuScore.flashlightBonus s (OsuScore.TotalHits s) = (1 : F) := by
      simp [OsuScore.flashlightBonus, hF]
    refine ⟨hfl, ?_⟩
    rw [hfl, max_eq_right hbonus]
    rfl

theorem osu_aim_vision_factor_witness :
    (0 : Int) ≤ (samplePlay flashlightMods)._numMiss ∧
    ∃ v₁ v₂ t acc : ℚ,
      OsuScore.aimMissStep ratLibm (samplePlay flashlightMods)._numMiss
        (OsuScore.TotalHits (samplePlay flashlightMods))
        (OsuScore.aimValueBase ratLibm (samplePlay flashlightMods) sampleBeatmap
          * OsuScore.lengthBonus ratLibm (OsuScore.TotalHits (samplePlay flashlightMods)))
        = some v₁ ∧
      OsuScore.comboStep ratLibm (samplePlay flashlightMods)._maxCombo
        (sampleBeatmap.DifficultyAttribute (samplePlay flashlightMods)._mods .MaxCombo) v₁
        = some v₂ ∧
      t = 1 / (1 + ratLibm.exp
        (-(0.007 * ((OsuScore.TotalHits (samplePlay flashlightMods) : ℚ) - 400)))) ∧
      OsuScore.approachRateTotalHitsFactor ratLibm
        (OsuScore.TotalHits (samplePlay flashlightMods)) = some t ∧
      OsuScore.Accuracy (samplePlay flashlightMods) = some acc ∧
      OsuScore.computeAimValue ratLibm (samplePlay flashlightMods) sampleBeatmap = some
        ((if (samplePlay flashlightMods)._mods.Hidden then
            v₂ * (1 + 0.04 * (12 - sampleBeatmap.DifficultyAttribute
              (samplePlay flashlightMods)._mods .AR)) else v₂)
          * max (OsuScore.flashlightBonus (samplePlay flashlightMods)
                (OsuScore.TotalHits (samplePlay flashlightMods)))
              (OsuScore.approachRateBonus t
                (OsuScore.aimApproachRateFactor (sampleBeatmap.DifficultyAttribute
                  (samplePlay flashlightMods)._mods .AR)))
          * (0.5 + acc / 2)
          * (0.98 + sampleBeatmap.DifficultyAttribute
              (samplePlay flashlightMods)._mods .OD ^ 2 / 2500)) ∧
      ((samplePlay flashlightMods)._mods.Flashlight = false →
        OsuScore.flashlightBonus (samplePlay flashlightMods)
          (OsuScore.TotalHits (samplePlay flashlightMods)) = (1 : ℚ) ∧
        max (OsuScore.flashlightBonus (samplePlay flashlightMods)
            (OsuScore.TotalHits (samplePlay flashlightMods)))
          (OsuScore.approachRateBonus t
            (OsuScore.aimApproachRateFactor (sampleBeatmap.DifficultyAttribute
              (samplePlay flashlightMods)._mods .AR)))
          = 1 + (0.03 + 0.37 * t)
              * OsuScore.aimApproachRateFactor (sampleBeatmap.DifficultyAttribute
                  (samplePlay flashlightMods)._mods .AR)) ∧
      1 ≤ max (OsuScore.flashlightBonus (samplePlay flashlightMods)
            (OsuScore.TotalHits (samplePlay flashlightMods)))
          (OsuScore.approachRateBonus t
            (OsuScore.aimApproachRateFactor (sampleBeatmap.DifficultyAttribute
              (samplePlay flashlightMods)._mods .AR))) :=
  ⟨by decide, osu_aim_vision_factor ratLibm ratLibm_sound (samplePlay flashlightMods)
    sampleBeatmap (by decide) (by decide) (by decide) (by decide) (by decide)⟩

/-- C16: in both modes, for a non-negative player max combo and any chart max combo,
combo scaling multiplies the value by a factor between 0 and 1; the factor is exactly
1 when the chart max combo is not positive (the scaling is skipped), exactly 1 when
the chart max combo is positive and the player max combo is at least as large, and
otherwise `(playerMaxCombo / chartMaxCombo)^0.5` in Catch and
`(playerMaxCombo / chartMaxCombo)^0.8` in the Osu aim and speed sub-values. -/
theorem combo_factor (m : Libm F) (hm : m.Sound) (he : m.Exact) (c : Int) (hc : 0 ≤ c) (b : F) :
    (∃ f : F, (∀ v, CatchScore.comboStep m c b v = some (v * f)) ∧ 0 ≤ f ∧ f ≤ 1 ∧
      (b ≤ 0 → f = 1) ∧ (0 < b → b ≤ (c : F) → f = 1) ∧
      (0 < b → (c : F) < b → f = m.pow ((c : F) / b) 0.5)) ∧
    (∃ f : F, (∀ v, OsuScore.comboStep m c b v = some (v * f)) ∧ 0 ≤ f ∧ f ≤ 1 ∧
      (b ≤ 0 → f = 1) ∧ (0 < b → b ≤ (c : F) → f = 1) ∧
      (0 < b → (c : F) < b → f = m.pow ((c : F) / b) 0.8)) := by
  by_cases hb : 0 < b
  · obtain ⟨e5, n5, ge5, lt5⟩ := comboQuotient_props m hm he 0.5 (by norm_num) c hc b hb
    obtain ⟨e8, n8, ge8, lt8⟩ := comboQuotient_props m hm he 0.8 (by norm_num) c hc b hb
    exact ⟨⟨_, fun v => by simp [CatchScore.comboStep, hb, e5], n5, min_le_right _ _,
        fun h => absurd hb (not_lt.2 h), fun _ h => ge5 h, fun _ h => lt5 h⟩,
      ⟨_, fun v => by simp [OsuScore.comboStep, hb, e8], n8, min_le_right _ _,
        fun h => absurd hb (not_lt.2 h), fun _ h => ge8 h, fun _ h => lt8 h⟩⟩
  · exact ⟨⟨1, fun v => by simp [CatchScore.comboStep, hb], zero_le_one, le_rfl,
        fun _ => rfl, fun h => absurd h hb, fun h => absurd h hb⟩,
      ⟨1, fun v => by simp [OsuScore.comboStep, hb], zero_le_one, le_rfl,
        fun _ => rfl, fun h => absurd h hb, fun h => absurd h hb⟩⟩

theorem combo_factor_witness :
    (0 : Int) ≤ 900 ∧
    (∃ f : ℚ, (∀ v, CatchScore.comboStep ratLibm 900 1000 v = some (v * f)) ∧ 0 ≤ f ∧ f ≤ 1 ∧
      ((1000 : ℚ) ≤ 0 → f = 1) ∧ ((0 : ℚ) < 1000 → (1000 : ℚ) ≤ ((900 : Int) : ℚ) → f = 1) ∧
      ((0 : ℚ) < 1000 → (((900 : Int) : ℚ)) < 1000 →
        f = ratLibm.pow (((900 : Int) : ℚ) / 1000) 0.5)) ∧
    (∃ f : ℚ, (∀ v, OsuScore.comboStep ratLibm 900 1000 v = some (v * f)) ∧ 0 ≤ f ∧ f ≤ 1 ∧
      ((1000 : ℚ) ≤ 0 → f = 1) ∧ ((0 : ℚ) < 1000 → (1000 : ℚ) ≤ ((900 : Int) : ℚ) → f = 1) ∧
      ((0 : ℚ) < 1000 → (((900 : Int) : ℚ)) < 1000 →
        f = ratLibm.pow (((900 : Int) : ℚ) / 1000) 0.8)) :=
  ⟨by decide, combo_factor ratLibm ratLibm_sound ratLibm_exact 900 (by decide) 1000⟩

/-- C17: in the Osu speed sub-value the exponent computed by the conditional of line
176 is `max(0, num50 - hits/500)`, so the doubletap factor is the specification's
`0.98^max(0, num50 - hits/500)`; it is positive and at most 1, exactly 1 whenever
`num50 ≤ hits/500`, and it is the last factor of the speed sub-value: the content of
`_speedValue` after line 174 times the factor, a finite number for non-negative
counters and max combo when the overall difficulty is at most 14.5 or the accuracy is
not 0. -/
theorem doubletap_factor (m : Libm F) (hm : m.Sound) (he : m.Exact) (s : Score)
    (beatmap : Beatmap F)
    (h300 : 0 ≤ s._num300) (h100 : 0 ≤ s._num100) (h50 : 0 ≤ s._num50)
    (hMiss : 0 ≤ s._numMiss) (hCombo : 0 ≤ s._maxCombo) :
    (OsuScore.doubletapExponent s._num50 (OsuScore.TotalHits s) : F) =
      max 0 ((s._num50 : F) - (OsuScore.TotalHits s : F) / 500) ∧
    m.pow 0.98 (OsuScore.doubletapExponent s._num50 (OsuScore.TotalHits s)) =
      doubletapPenaltySpec m s._num50 (OsuScore.TotalHits s) ∧
    0 < doubletapPenaltySpec m s._num50 (OsuScore.TotalHits s) ∧
    doubletapPenaltySpec m s._num50 (OsuScore.TotalHits s) ≤ 1 ∧
    ((s._num50 : F) ≤ (OsuScore.TotalHits s : F) / 500 →
      doubletapPenaltySpec m s._num50 (OsuScore.TotalHits s) = 1) ∧
    OsuScore.computeSpeedValue m s beatmap =
      (OsuScore.speedValueScaled m s beatmap).map
        (fun pre => pre * doubletapPenaltySpec m s._num50 (OsuScore.TotalHits s)) ∧
    (beatmap.DifficultyAttribute s._mods .OD ≤ 14.5 ∨
        (OsuScore.Accuracy s : Option F) ≠ some 0 →
      ∃ pre : F, OsuScore.speedValueScaled m s beatmap = some pre ∧
        OsuScore.computeSpeedValue m s beatmap = some
          (pre * doubletapPenaltySpec m s._num50 (OsuScore.TotalHits s))) := by
  have hx := doubletapExponent_eq_max (F := F) s._num50 (OsuScore.TotalHits s)
  have hspec : m.pow 0.98 (OsuScore.doubletapExponent s._num50 (OsuScore.TotalHits s)) =
      doubletapPenaltySpec m s._num50 (OsuScore.TotalHits s) := by
    rw [hx]
    rfl
  have hsplit : OsuScore.computeSpeedValue m s beatmap =
      (OsuScore.speedValueScaled m s beatmap).map
        (fun pre => pre * doubletapPenaltySpec m s._num50 (OsuScore.TotalHits s)) := by
    rw [computeSpeedValue_split, hspec]
  refine ⟨hx, hspec, hm.pow_pos _ _ (by norm_num),
    hm.pow_le_one _ _ (by norm_num) (by norm_num) (le_max_left _ _), fun h => ?_, hsplit,
    fun hp => ?_⟩
  · unfold doubletapPenaltySpec
    rw [max_eq_left (by linarith), he.pow_zero]
  · obtain ⟨g₁, f₂, t, acc, -, -, -, -, -, -, -, es⟩ :=
      speedValueScaled_eq m hm s beatmap h300 h100 h50 hMiss hCombo hp
    exact ⟨_, es, by rw [hsplit, es]; rfl⟩

theorem doubletap_factor_witness :
    (0 : Int) ≤ (samplePlay {})._num50 ∧
    (sampleBeatmap.DifficultyAttribute (samplePlay {})._mods .OD ≤ 14.5 ∨
      (OsuScore.Accuracy (samplePlay {}) : Option ℚ) ≠ some 0) ∧
    (OsuScore.doubletapExponent (samplePlay {})._num50 (OsuScore.TotalHits (samplePlay {})) : ℚ)
      = max 0 (((samplePlay {})._num50 : ℚ) - (OsuScore.TotalHits (samplePlay {}) : ℚ) / 500) ∧
    0 < doubletapPenaltySpec ratLibm (samplePlay {})._num50 (OsuScore.TotalHits (samplePlay {})) ∧
    doubletapPenaltySpec ratLibm (samplePlay {})._num50 (OsuScore.TotalHits (samplePlay {})) ≤ 1 ∧
    OsuScore.computeSpeedValue ratLibm (samplePlay {}) sampleBeatmap =
      (OsuScore.speedValueScaled ratLibm (samplePlay {}) sampleBeatmap).map
        (fun pre => pre * doubletapPenaltySpec ratLibm (samplePlay {})._num50
          (OsuScore.TotalHits (samplePlay {}))) ∧
    ∃ pre : ℚ, OsuScore.speedValueScaled ratLibm (samplePlay {}) sampleBeatmap = some pre ∧
      OsuScore.computeSpeedValue ratLibm (samplePlay {}) sampleBeatmap = some
        (pre * doubletapPenaltySpec ratLibm (samplePlay {})._num50
          (OsuScore.TotalHits (samplePlay {}))) := by
  have h := doubletap_factor ratLibm ratLibm_sound ratLibm_exact (samplePlay {}) sampleBeatmap
    (by decide) (by decide) (by decide) (by decide) (by decide)
  have hp : sampleBeatmap.DifficultyAttribute (samplePlay {})._mods .OD ≤ 14.5 ∨
      (OsuScore.Accuracy (samplePlay {}) : Option ℚ) ≠ some 0 :=
    Or.inl (by norm_num [sampleBeatmap])
  exact ⟨by decide, hp, h.1, h.2.2.1, h.2.2.2.1, h.2.2.2.2.2.1, h.2.2.2.2.2.2 hp⟩

/-! ## The combine step and the length bonus -/

/-- C19: in Osu mode, for a play without Relax, Relax2, Autoplay, NoFail and SpunOut
and non-negative sub-values `a`, `sp`, `c`, the combine step gives
`TotalValue() = 1.12 * (a^1.1 + sp^1.1 + c^1.1)^(1/1.1)`, which lies between
`1.12 * max(a, sp, c)` and `1.12 * (a + sp + c)`; it is non-negative, and it is 0
exactly when the three sub-values are 0. -/
theorem osu_combine_bounds (m : Libm F) (hm : m.Sound) (he : m.Exact) (hmean : m.Mean)
    (s : Score) (beatmap : Beatmap F) (a sp c : F)
    (hR : s._mods.Relax = false) (hR2 : s._mods.Relax2 = false) (hA : s._mods.Autoplay = false)
    (hNF : s._mods.NoFail = false) (hSO : s._mods.SpunOut = false)
    (ha : 0 ≤ a) (hsp : 0 ≤ sp) (hc : 0 ≤ c) :
    ∃ v : F, OsuScore.computeTotalValue m s beatmap (some a) (some sp) (some c) = some v ∧
      v = 1.12 * m.pow (m.pow a 1.1 + m.pow sp 1.1 + m.pow c 1.1) (1 / 1.1) ∧
      1.12 * max a (max sp c) ≤ v ∧ v ≤ 1.12 * (a + sp + c) ∧ 0 ≤ v ∧
      (v = 0 ↔ a = 0 ∧ sp = 0 ∧ c = 0) ∧
      (OsuScore.computeAimValue m s beatmap = some a →
        OsuScore.computeSpeedValue m s beatmap = some sp →
        OsuScore.computeAccValue m s beatmap = some c →
        OsuScore.TotalValue m s beatmap = some v) := by
  obtain ⟨lo, hi⟩ := mean_bounds m hm he hmean 1.1 (by norm_num) a sp c ha hsp hc
  have hmax : 0 ≤ max a (max sp c) := le_trans ha (le_max_left _ _)
  have ev : OsuScore.computeTotalValue m s beatmap (some a) (some sp) (some c) = some
      (1.12 * m.pow (m.pow a 1.1 + m.pow sp 1.1 + m.pow c 1.1) (1 / 1.1)) := by
    simp only [OsuScore.computeTotalValue, hR, hR2, hA, osuMultiplier_plain m s beatmap hNF hSO,
      Option.bind_eq_bind, Option.some_bind]
    rw [mul_comm (1.12 : F)]
    simpa using osuCombine_some m hm a sp c 1.12 ha hsp hc
  refine ⟨_, ev, rfl, ?_, ?_, ?_, ?_, ?_⟩
  · exact mul_le_mul_of_nonneg_left lo (by norm_num)
  · exact mul_le_mul_of_nonneg_left hi (by norm_num)
  · exact mul_nonneg (by norm_num) (le_trans hmax lo)
  · constructor
    · intro h0
      have hz : m.pow (m.pow a 1.1 + m.pow sp 1.1 + m.pow c 1.1) (1 / 1.1) = 0 := by
        rcases mul_eq_zero.1 h0 with h | h
        · exact absurd h (by norm_num)
        · exact h
      have hle : max a (max sp c) ≤ 0 := by rw [← hz]; exact lo
      have h1 : a ≤ 0 := le_trans (le_max_left _ _) hle
      have h2 : sp ≤ 0 := le_trans (le_trans (le_max_left _ _) (le_max_right _ _)) hle
      have h3 : c ≤ 0 := le_trans (le_trans (le_max_right _ _) (le_max_right _ _)) hle
      exact ⟨le_antisymm h1 ha, le_antisymm h2 hsp, le_antisymm h3 hc⟩
    · rintro ⟨rfl, rfl, rfl⟩
      have h1 : m.pow (m.pow 0 1.1 + m.pow 0 1.1 + m.pow 0 1.1) (1 / 1.1) ≤ 0 := by
        simpa using hi
      have h2 : 0 ≤ m.pow (m.pow 0 1.1 + m.pow 0 1.1 + m.pow 0 1.1) (1 / 1.1) := by
        simpa using lo
      rw [le_antisymm h1 h2, mul_zero]
  · intro e1 e2 e3
    rw [OsuScore.TotalValue, OsuScore.construct]
    simp only [e1, e2, e3]
    exact ev

theorem osu_combine_bounds_witness :
    (samplePlay {})._mods.NoFail = false ∧ (0 : ℝ) ≤ 200 ∧
    ∃ v : ℝ, OsuScore.computeTotalValue
        ({ pow := fun x y => x ^ y, exp := Real.exp, log10 := Real.logb 10 } : Libm ℝ)
        (samplePlay {}) (flatBeatmap (0 : ℝ)) (some 200) (some 150) (some 100) = some v ∧
      v = 1.12 * ((200 : ℝ) ^ (1.1 : ℝ) + (150 : ℝ) ^ (1.1 : ℝ) + (100 : ℝ) ^ (1.1 : ℝ))
        ^ ((1 : ℝ) / 1.1) ∧
      1.12 * max (200 : ℝ) (max 150 100) ≤ v ∧ v ≤ 1.12 * (200 + 150 + 100) := by
  obtain ⟨v, e, hv, lo, hi, -⟩ := osu_combine_bounds
    ({ pow := fun x y => x ^ y, exp := Real.exp, log10 := Real.logb 10 } : Libm ℝ)
    real_sound real_exact real_mean (samplePlay {}) (flatBeatmap (0 : ℝ)) 200 150 100
    rfl rfl rfl rfl rfl (by norm_num) (by norm_num) (by norm_num)
  exact ⟨rfl, by norm_num, v, e, hv, lo, hi⟩

/-- C20: the Osu length bonus `0.95 + 0.4 * min(1, hits/2000) + (hits > 2000 ?
0.5 * log10(hits/2000) : 0)`, the same expression in the aim and the speed
sub-value, does not decrease when the number of hits grows from `h₁ ≥ 0` to
`h₂ ≥ h₁`; it is `0.95` at 0 hits, `1.35` at 2000 hits and at least `0.95` for every
non-negative number of hits. -/
theorem lengthBonus_mono (m : Libm F) (hm : m.Sound) (he : m.Exact) (h₁ h₂ : Int)
    (h0 : 0 ≤ h₁) (h12 : h₁ ≤ h₂) :
    OsuScore.lengthBonus m h₁ ≤ OsuScore.lengthBonus m h₂ ∧
    OsuScore.lengthBonus m 0 = 0.95 ∧
    OsuScore.lengthBonus m 2000 = 1.35 ∧
    0.95 ≤ OsuScore.lengthBonus m h₁ := by
  have e0 : (0 : F) ≤ (h₁ : F) := by exact_mod_cast h0
  have e12 : (h₁ : F) ≤ (h₂ : F) := by exact_mod_cast h12
  refine ⟨?_, ?_, ?_, lengthBonus_ge m hm h₁ h0⟩
  · by_cases c2 : h₂ > 2000
    · have f2 : (2000 : F) < (h₂ : F) := by exact_mod_cast c2
      have m2 : min 1 ((h₂ : F) / 2000) = 1 :=
        min_eq_left ((le_div_iff₀ (by norm_num)).2 (by linarith))
      by_cases c1 : h₁ > 2000
      · have f1 : (2000 : F) < (h₁ : F) := by exact_mod_cast c1
        have m1 : min 1 ((h₁ : F) / 2000) = 1 :=
          min_eq_left ((le_div_iff₀ (by norm_num)).2 (by linarith))
        have hl := he.log10_mono ((h₁ : F) / 2000) ((h₂ : F) / 2000) (by positivity)
          (div_le_div_of_nonneg_right e12 (by norm_num))
        simp only [OsuScore.lengthBonus, c1, c2, if_true, m1, m2]
        linarith
      · have hl := hm.log10_nonneg ((h₂ : F) / 2000)
          ((le_div_iff₀ (by norm_num)).2 (by linarith))
        have hmin : min 1 ((h₁ : F) / 2000) ≤ 1 := min_le_left _ _
        simp only [OsuScore.lengthBonus, c1, c2, if_true, if_false, m2]
        linarith
    · have c1 : ¬ h₁ > 2000 := fun h => c2 (lt_of_lt_of_le h h12)
      have hmin : min 1 ((h₁ : F) / 2000) ≤ min 1 ((h₂ : F) / 2000) :=
        min_le_min le_rfl (div_le_div_of_nonneg_right e12 (by norm_num))
      simp only [OsuScore.lengthBonus, c1, c2, if_false]
      linarith
  · simp [OsuScore.lengthBonus]
  · simp [OsuScore.lengthBonus]
    norm_num

theorem lengthBonus_mono_witness :
    (0 : Int) ≤ 1500 ∧ (1500 : Int) ≤ 3000 ∧
    OsuScore.lengthBonus ratLibm 1500 ≤ OsuScore.lengthBonus ratLibm 3000 ∧
    OsuScore.lengthBonus ratLibm 0 = 0.95 ∧
    OsuScore.lengthBonus ratLibm 2000 = 1.35 ∧
    0.95 ≤ OsuScore.lengthBonus ratLibm 1500 :=
  ⟨by decide, by decide,
    lengthBonus_mono ratLibm ratLibm_sound ratLibm_exact 1500 3000 (by decide) (by decide)⟩

end Claims

end PP
